import Mathlib

/-!
Compage: topology import, validation and enrichment; generation dispatch; Kubernetes manifests.

A shallow embedding of

* `core/internal/converter/converter.go` (`ConvertMap`, `GetCompageJson`, `validate`,
  `populateExternalNodeInfoInEdges`, the three `get…ForEdge` scans, `GetMetadata`),
* `internal/handlers/projects.go` (`Handle`, `processNode`, `runLanguageProcess`),
* `core/internal/languages/golang/integrations/kubernetes/copier.go` (`NewCopier`,
  `CreateKubernetesFiles`),

followed by theorems about them.

Conventions of the embedding.

* A Go function that mutates its argument in place and returns an `error` becomes a function
  returning the mutated value together with `Option Fault` (`none` is the `nil` error).
* A run-time panic (nil pointer dereference, failed type assertion) is a `Fault` of its own, so
  that "returns an error" and "does not return" stay apart.
* The slices `[]*node.Node` and `[]*edge.Edge` are lists of records: `json.Unmarshal` allocates
  one record per array element, so the pointers are distinct and the in-place updates of the Go
  loops are updates of list elements.
-/

set_option autoImplicit false

namespace Compage

/-! ## Outcomes -/

/-- The ways a call can end other than by returning normally: a Go `error` value (identified by
its message), a nil pointer dereference, or a failed single-value type assertion. The last two are
run-time panics. -/
inductive Fault where
  | error (msg : String)
  | nilDereference
  | typeAssertion
  deriving DecidableEq, Repr

/-! ## Data model (`core.CompageJson`, `node.Node`, `edge.Edge`) -/

/-- Modelled from the spec: the declaration of `node.RestServerConfig` is not among the sources.
The converter reads its field `OpenApiFileYamlContent`; the spec adds the listening port. -/
structure RestServerConfig where
  Port : String
  OpenApiFileYamlContent : String
  deriving DecidableEq, Repr

/-- Modelled from the spec: the declaration of `node.GrpcServerConfig` is not among the sources.
The converter reads its field `ProtoFileContent`; the spec adds the listening port. -/
structure GrpcServerConfig where
  Port : String
  ProtoFileContent : String
  deriving DecidableEq, Repr

/-- Modelled from the spec: the declaration of `node.ConsumerData` is not among the sources. The
fields are those the converter touches. A node may have no server of a kind ("if the source Node
has no server"), so the two server configs are pointers, `none` being the nil pointer, exactly as
the client configs of an edge, which the converter compares with `nil`. -/
structure NodeConsumerData where
  Name : String
  Language : String
  Template : String
  RestServerConfig : Option RestServerConfig
  GrpcServerConfig : Option GrpcServerConfig
  deriving DecidableEq, Repr

/-- Modelled from the spec: the declaration of `node.Node` is not among the sources. The converter
reads `ID` and `ConsumerData`. -/
structure Node where
  ID : String
  ConsumerData : NodeConsumerData
  deriving DecidableEq, Repr

/-- Modelled from the spec: the declaration of `edge.RestClientConfig` is not among the sources.
The converter writes its field `OpenApiFileYamlContent`. -/
structure RestClientConfig where
  Port : String
  OpenApiFileYamlContent : String
  deriving DecidableEq, Repr

/-- Modelled from the spec: the declaration of `edge.GrpcClientConfig` is not among the sources.
The converter writes its field `ProtoFileContent`. -/
structure GrpcClientConfig where
  Port : String
  ProtoFileContent : String
  deriving DecidableEq, Repr

/-- Modelled from the spec: the declaration of `edge.ConsumerData` is not among the sources. The
converter compares both client configs with `nil`, so they are pointers. -/
structure EdgeConsumerData where
  ExternalNode : String
  RestClientConfig : Option RestClientConfig
  GrpcClientConfig : Option GrpcClientConfig
  deriving DecidableEq, Repr

/-- Modelled from the spec: the declaration of `edge.Edge` is not among the sources. The converter
reads `Src` and `ConsumerData`. -/
structure Edge where
  Src : String
  ConsumerData : EdgeConsumerData
  deriving DecidableEq, Repr

/-- Modelled from the spec: the declaration of `core.CompageJson` is not among the sources. The
converter ranges over `Edges` and `Nodes`. -/
structure CompageJson where
  Edges : List Edge
  Nodes : List Node
  deriving DecidableEq, Repr

/-- Modelled from the spec: the constants of package `languages` are not among the sources. The
converter uses `languages.Go` and `languages.Compage` (the default language and template), the
dispatcher the seven language tags. They are taken as parameters. -/
structure Languages where
  Go : String
  Python : String
  Java : String
  Rust : String
  JavaScript : String
  TypeScript : String
  Ruby : String
  Compage : String
  deriving DecidableEq, Repr

/-! ## Enrichment (`converter.go`, lines 103-146) -/

/-- `getExternalNodeForEdge`: the name of the first node whose identifier is `src`, the empty
string when there is none. -/
def getExternalNodeForEdge (src : String) : List Node → String
  | [] => ""
  | n :: nodes =>
    if src = n.ID then n.ConsumerData.Name else getExternalNodeForEdge src nodes

/-- `getProtoFileContentForEdge`: at the first node whose identifier is `src` the code evaluates
`n.ConsumerData.GrpcServerConfig.ProtoFileContent`, which dereferences the config pointer. -/
def getProtoFileContentForEdge (src : String) : List Node → Except Fault String
  | [] => .ok ""
  | n :: nodes =>
    if src = n.ID then
      match n.ConsumerData.GrpcServerConfig with
      | none => .error Fault.nilDereference
      | some cfg => .ok cfg.ProtoFileContent
    else getProtoFileContentForEdge src nodes

/-- `getOpenApiFileYamlContentForEdge`: at the first node whose identifier is `src` the code
evaluates `n.ConsumerData.RestServerConfig.OpenApiFileYamlContent`, which dereferences the config
pointer. -/
def getOpenApiFileYamlContentForEdge (src : String) : List Node → Except Fault String
  | [] => .ok ""
  | n :: nodes =>
    if src = n.ID then
      match n.ConsumerData.RestServerConfig with
      | none => .error Fault.nilDereference
      | some cfg => .ok cfg.OpenApiFileYamlContent
    else getOpenApiFileYamlContentForEdge src nodes

/-- Lines 105-108: fill the external-node name when it is empty. -/
def fillExternalNode (nodes : List Node) (edge : Edge) : Edge :=
  if edge.ConsumerData.ExternalNode = "" then
    { edge with ConsumerData :=
        { edge.ConsumerData with ExternalNode := getExternalNodeForEdge edge.Src nodes } }
  else edge

/-- Lines 109-112: when the edge has a REST client config, overwrite its schema document. The
scan runs before the assignment, so a fault leaves the edge as it was. -/
def fillOpenApi (nodes : List Node) (edge : Edge) : Edge × Option Fault :=
  match edge.ConsumerData.RestClientConfig with
  | none => (edge, none)
  | some rc =>
    match getOpenApiFileYamlContentForEdge edge.Src nodes with
    | .error f => (edge, some f)
    | .ok doc =>
      ({ edge with ConsumerData :=
          { edge.ConsumerData with
            RestClientConfig := some { rc with OpenApiFileYamlContent := doc } } }, none)

/-- Lines 113-116: when the edge has a gRPC client config, overwrite its contract document. -/
def fillProto (nodes : List Node) (edge : Edge) : Edge × Option Fault :=
  match edge.ConsumerData.GrpcClientConfig with
  | none => (edge, none)
  | some gc =>
    match getProtoFileContentForEdge edge.Src nodes with
    | .error f => (edge, some f)
    | .ok doc =>
      ({ edge with ConsumerData :=
          { edge.ConsumerData with
            GrpcClientConfig := some { gc with ProtoFileContent := doc } } }, none)

/-- The body of the loop of `populateExternalNodeInfoInEdges` for one edge: the three steps in
source order, stopping at the first fault. -/
def populateEdge (nodes : List Node) (edge : Edge) : Edge × Option Fault :=
  match fillOpenApi nodes (fillExternalNode nodes edge) with
  | (edge1, some f) => (edge1, some f)
  | (edge1, none) => fillProto nodes edge1

/-- The loop of `populateExternalNodeInfoInEdges` over the edges: a fault stops it, leaving the
remaining edges untouched. The loop never writes to a node, so every iteration reads the same
nodes. -/
def populateEdges (nodes : List Node) : List Edge → List Edge × Option Fault
  | [] => ([], none)
  | edge :: edges =>
    match populateEdge nodes edge with
    | (edge1, some f) => (edge1 :: edges, some f)
    | (edge1, none) =>
      match populateEdges nodes edges with
      | (edges1, r) => (edge1 :: edges1, r)

/-- `populateExternalNodeInfoInEdges`: the topology after the loop, and the fault that stopped it,
if any. -/
def populateExternalNodeInfoInEdges (compageJson : CompageJson) : CompageJson × Option Fault :=
  match populateEdges compageJson.Nodes compageJson.Edges with
  | (edges1, r) => ({ compageJson with Edges := edges1 }, r)

/-! ## Validation (`converter.go`, lines 73-101) -/

/-- Lines 82-89: the two defaults, applied to a node whose name is not empty. -/
def setDefaults (L : Languages) (n : Node) : Node :=
  let n1 : Node :=
    if n.ConsumerData.Language = "" then
      { n with ConsumerData := { n.ConsumerData with Language := L.Go } }
    else n
  if n1.ConsumerData.Template = "" then
    { n1 with ConsumerData := { n1.ConsumerData with Template := L.Compage } }
  else n1

/-- Lines 77-90: the loop of `validate` over the nodes. It returns at the first node whose name is
empty; the nodes before it have received their defaults. -/
def validateNodes (L : Languages) : List Node → List Node × Option Fault
  | [] => ([], none)
  | n :: nodes =>
    if n.ConsumerData.Name = "" then
      (n :: nodes, some (Fault.error "name should not be empty"))
    else
      match validateNodes L nodes with
      | (nodes1, r) => (setDefaults L n :: nodes1, r)

/-- Lines 91-95: the loop of `validate` over the edges. -/
def validateEdges : List Edge → Option Fault
  | [] => none
  | e :: edges =>
    if e.ConsumerData.ExternalNode = "" then
      some (Fault.error "externalNode should not be empty")
    else validateEdges edges

/-- `validate`: enrichment, then the node loop, then the edge loop. The result is the topology as
the call leaves it and the error it returns (`none` for `nil`). -/
def validate (L : Languages) (compageJson : CompageJson) : CompageJson × Option Fault :=
  match populateExternalNodeInfoInEdges compageJson with
  | (c1, some f) => (c1, some f)
  | (c1, none) =>
    match validateNodes L c1.Nodes with
    | (nodes1, some f) => ({ c1 with Nodes := nodes1 }, some f)
    | (nodes1, none) => ({ c1 with Nodes := nodes1 }, validateEdges c1.Edges)

/-! ## Import (`converter.go`, lines 36-71 and 148-155) -/

/-- A decoded JSON value as `encoding/json` stores it in an `interface{}`: `nil`, `bool`,
`float64` (kept as its literal), `string`, `[]interface{}` and `map[string]interface{}`. -/
inductive JValue where
  | null
  | bool (b : Bool)
  | number (literal : String)
  | string (s : String)
  | array (items : List JValue)
  | object (members : List (String × JValue))
  deriving Repr

/-- A Go `map[string]interface{}`: its entries, keys pairwise distinct, in no particular order. -/
abbrev GoMap := List (String × JValue)

/-- The index expression `x[key]`: the stored value, and `nil` when the key is absent. -/
def GoMap.index (x : GoMap) (key : String) : JValue :=
  match x.find? (fun p => decide (p.1 = key)) with
  | some p => p.2
  | none => JValue.null

/-- The assignment `x[key] = v`: the entry for `key` is replaced, or added. -/
def GoMap.assign (x : GoMap) (key : String) (v : JValue) : GoMap :=
  (key, v) :: x.filter (fun p => !decide (p.1 = key))

/-- The order in which one call of `maps.Values` lists the values of a map. The library leaves
it indeterminate; a call returns the values rearranged in some way. -/
structure ValuesOrder where
  reorder : List JValue → List JValue
  perm : ∀ l, (reorder l).Perm l

/-- The order that lists the values as the entries are written. -/
def ValuesOrder.asWritten : ValuesOrder := ⟨id, fun l => List.Perm.refl l⟩

/-- The order that lists the values backwards. -/
def ValuesOrder.reversed : ValuesOrder := ⟨List.reverse, fun l => List.reverse_perm l⟩

/-- `maps.Values(m)` under a given order. -/
def mapsValues (o : ValuesOrder) (m : GoMap) : List JValue :=
  o.reorder (m.map Prod.snd)

/-- One statement of `ConvertMap`: `if x[key] != nil { x[key] = maps.Values(x[key].(map[string]interface{})) }`.
The single-value type assertion panics on every non-nil value that is not a map. -/
def convertMember (o : ValuesOrder) (key : String) (x : GoMap) : Except Fault GoMap :=
  match x.index key with
  | JValue.null => .ok x
  | JValue.object m => .ok (x.assign key (JValue.array (mapsValues o m)))
  | _ => .error Fault.typeAssertion

/-- `ConvertMap`: the `edges` member first, then the `nodes` member; `edgesOrder` and `nodesOrder` are the orders
of the two calls of `maps.Values`. -/
def ConvertMap (edgesOrder nodesOrder : ValuesOrder) (x : GoMap) : Except Fault GoMap :=
  match convertMember edgesOrder "edges" x with
  | .error f => .error f
  | .ok x1 => convertMember nodesOrder "nodes" x1

/-- The library `encoding/json`, taken as a parameter: `unmarshalMap` is `json.Unmarshal` into a
fresh `map[string]interface{}` (the entries it decodes, or its error), `decodeCompageJson` is
`json.Marshal` of a map followed by `json.Unmarshal` into a `core.CompageJson`. -/
structure JsonCodec where
  unmarshalMap : String → Except Fault GoMap
  decodeCompageJson : GoMap → Except Fault CompageJson

/-- `GetCompageJson`: decode, flatten, decode into the typed topology, validate. A fault of
`validate` discards the topology. -/
def GetCompageJson (J : JsonCodec) (L : Languages) (edgesOrder nodesOrder : ValuesOrder) (jsonString : String) :
    Except Fault CompageJson :=
  match J.unmarshalMap jsonString with
  | .error f => .error f
  | .ok x =>
    match ConvertMap edgesOrder nodesOrder x with
    | .error f => .error f
    | .ok convertedX =>
      match J.decodeCompageJson convertedX with
      | .error f => .error f
      | .ok compageJson =>
        match validate L compageJson with
        | (_, some f) => .error f
        | (validated, none) => .ok validated

/-- `GetMetadata`: the decoded map, and the nil map (`none`) when `json.Unmarshal` reports an
error. A map value that is not nil is `some` of its entries. -/
def GetMetadata (J : JsonCodec) (metadataInput : String) : Option GoMap :=
  match J.unmarshalMap metadataInput with
  | .error _ => none
  | .ok metadata => some metadata

/-! ## Dispatch (`internal/handlers/projects.go`) -/

/-- Modelled from the spec: the declaration of `corenode.Node` (package `internal/core/node`) is
not among the sources. `Handle` reads `ID` and `Name`. -/
structure CoreNode where
  ID : String
  Name : String
  deriving DecidableEq, Repr

/-- Modelled from the spec: the declaration of `core.CompageJSON` (package `internal/core`) is
not among the sources. `Handle` ranges over `Nodes`. -/
structure CompageJSON where
  Nodes : List CoreNode
  deriving DecidableEq, Repr

/-- Modelled from the spec: the declaration of `core.Project` is not among the sources. `Handle`
reads `Name` and `CompageJSON`. -/
structure Project where
  Name : String
  CompageJSON : CompageJSON
  deriving DecidableEq, Repr

/-- Modelled from the spec: the declaration of `languages.LanguageNode` is not among the sources.
`runLanguageProcess` reads `Language`. -/
structure LanguageNode where
  ID : String
  Name : String
  Language : String
  deriving DecidableEq, Repr

/-- Modelled from the spec: the declaration of `languages.Values` is not among the sources. It is
what `languages.AddValuesToContext` stores in the context (project settings, the language node);
`processNode` reads `NodeDirectoryName`. The context is identified with the values it carries. -/
structure Values where
  CoreProject : Project
  LanguageNode : LanguageNode
  NodeDirectoryName : String
  deriving DecidableEq, Repr

/-- The seven language packages whose `Process` the dispatcher can call. -/
inductive Backend where
  | golang
  | python
  | java
  | rust
  | javascript
  | typescript
  | ruby
  deriving DecidableEq, Repr

/-- One entry of the trace of a run: a call the dispatcher made, with the error it returned
(`none` for `nil`). `processNode` is the call at line 36 of `Handle`, recorded when it returns;
the others are calls to collaborators. -/
inductive Event where
  | CreateDirectories (path : String) (err : Option Fault)
  | NewLanguageNode (compageNode : CoreNode) (err : Option Fault)
  | Process (backend : Backend) (ctx : Values) (err : Option Fault)
  | processNode (compageNode : CoreNode) (err : Option Fault)
  | deepsourceNewCopier (err : Option Fault)
  | CreateDeepSourceFiles (err : Option Fault)
  | readmeNewCopier (err : Option Fault)
  | CreateReadMeFile (err : Option Fault)
  deriving DecidableEq, Repr

/-- The collaborators of the dispatcher (packages `utils`, `languages`, the seven language
packages, `deepsource`, `readme`), none of which is among the sources, taken as parameters. The
outcome of a call with effects may depend on everything that happened before it: such a call
receives the trace so far. `Process backend ctx` is the backend's `AddValuesToContext` followed
by its `Process`. -/
structure Collaborators where
  GetProjectDirectoryName : String → String
  CreateDirectories : List Event → String → Option Fault
  NewLanguageNode : List Event → CompageJSON → CoreNode → Except Fault LanguageNode
  AddValuesToContext : Project → LanguageNode → Values
  Process : List Event → Backend → Values → Option Fault
  deepsourceNewCopier : List Event → Project → Option Fault
  CreateDeepSourceFiles : List Event → Project → Option Fault
  readmeNewCopier : List Event → Project → Option Fault
  CreateReadMeFile : List Event → Project → Option Fault

/-- One branch of `runLanguageProcess`: call the backend's `Process`; its error, if any, is the
result, and `nil` otherwise. -/
def callProcess (K : Collaborators) (past : List Event) (backend : Backend) (ctx : Values) :
    List Event × Option Fault :=
  ([Event.Process backend ctx (K.Process past backend ctx)], K.Process past backend ctx)

/-- `runLanguageProcess`: the chain of comparisons of the node's language with the seven tags, in
source order; no branch for any other language. Returns the calls made and the error. -/
def runLanguageProcess (K : Collaborators) (L : Languages) (past : List Event)
    (languageNode : LanguageNode) (languageCtx : Values) : List Event × Option Fault :=
  if languageNode.Language = L.Go then callProcess K past Backend.golang languageCtx
  else if languageNode.Language = L.Python then callProcess K past Backend.python languageCtx
  else if languageNode.Language = L.Java then callProcess K past Backend.java languageCtx
  else if languageNode.Language = L.Rust then callProcess K past Backend.rust languageCtx
  else if languageNode.Language = L.JavaScript then
    callProcess K past Backend.javascript languageCtx
  else if languageNode.Language = L.TypeScript then
    callProcess K past Backend.typescript languageCtx
  else if languageNode.Language = L.Ruby then callProcess K past Backend.ruby languageCtx
  else ([], none)

/-- `processNode`: build the language node, the context, the node directory, then run the
backend; the first error is returned as it is. Returns the calls made and the error. -/
def processNode (K : Collaborators) (L : Languages) (past : List Event) (coreProject : Project)
    (compageNode : CoreNode) : List Event × Option Fault :=
  match K.NewLanguageNode past coreProject.CompageJSON compageNode with
  | .error err => ([Event.NewLanguageNode compageNode (some err)], some err)
  | .ok languageNode =>
    let languageCtx := K.AddValuesToContext coreProject languageNode
    let nodeDirectoryName := languageCtx.NodeDirectoryName
    let made := [Event.NewLanguageNode compageNode none]
    match K.CreateDirectories (past ++ made) nodeDirectoryName with
    | some err0 => (made ++ [Event.CreateDirectories nodeDirectoryName (some err0)], some err0)
    | none =>
      let made1 := made ++ [Event.CreateDirectories nodeDirectoryName none]
      match runLanguageProcess K L (past ++ made1) languageNode languageCtx with
      | (made2, err) => (made1 ++ made2, err)

/-- Lines 34-43 of `Handle`: the loop over the nodes. It returns at the first node on which
`processNode` returns an error. -/
def handleNodes (K : Collaborators) (L : Languages) (coreProject : Project) :
    List CoreNode → List Event → List Event × Option Fault
  | [], _ => ([], none)
  | compageNode :: nodes, past =>
    match processNode K L past coreProject compageNode with
    | (made, some err) => (made ++ [Event.processNode compageNode (some err)], some err)
    | (made, none) =>
      match handleNodes K L coreProject nodes
          (past ++ (made ++ [Event.processNode compageNode none])) with
      | (rest, r) => ((made ++ [Event.processNode compageNode none]) ++ rest, r)

/-- Lines 45-63 of `Handle`: the deepsource copier and its files, then the readme copier and its
file. An error of a constructor is replaced by a new error; an error of a create step is returned
as it is. -/
def finishProject (K : Collaborators) (coreProject : Project) (past : List Event) :
    List Event × Option Fault :=
  match K.deepsourceNewCopier past coreProject with
  | some err =>
    ([Event.deepsourceNewCopier (some err)], some (Fault.error "deep source copier is nil"))
  | none =>
    let made := [Event.deepsourceNewCopier none]
    match K.CreateDeepSourceFiles (past ++ made) coreProject with
    | some err => (made ++ [Event.CreateDeepSourceFiles (some err)], some err)
    | none =>
      let made1 := made ++ [Event.CreateDeepSourceFiles none]
      match K.readmeNewCopier (past ++ made1) coreProject with
      | some err =>
        (made1 ++ [Event.readmeNewCopier (some err)], some (Fault.error "readme copier is nil"))
      | none =>
        let made2 := made1 ++ [Event.readmeNewCopier none]
        (made2 ++ [Event.CreateReadMeFile (K.CreateReadMeFile (past ++ made2) coreProject)],
          K.CreateReadMeFile (past ++ made2) coreProject)

/-- `Handle`: the project directory, the loop over the nodes, the two project-level steps. It
returns the trace of the run (the calls made, in order) and the error. `past` is what happened
before the run. -/
def Handle (K : Collaborators) (L : Languages) (coreProject : Project) (past : List Event) :
    List Event × Option Fault :=
  let projectDirectory := K.GetProjectDirectoryName coreProject.Name
  match K.CreateDirectories past projectDirectory with
  | some err => ([Event.CreateDirectories projectDirectory (some err)], some err)
  | none =>
    let made := [Event.CreateDirectories projectDirectory none]
    match handleNodes K L coreProject coreProject.CompageJSON.Nodes (past ++ made) with
    | (made1, some err) => (made ++ made1, some err)
    | (made1, none) =>
      match finishProject K coreProject (past ++ (made ++ made1)) with
      | (made2, r) => (made ++ made1 ++ made2, r)

/-! ## Kubernetes manifests (`core/internal/languages/golang/integrations/kubernetes/copier.go`) -/

/-- The constant `Path`. -/
def Path : String := "/kubernetes"

/-- The constant `DeploymentFile`. -/
def DeploymentFile : String := "deployment.yaml.tmpl"

/-- The constant `ServiceFile`. -/
def ServiceFile : String := "service.yaml.tmpl"

/-- The struct `Copier`; `Data` is a `map[string]interface{}`. -/
structure Copier where
  NodeDirectoryName : String
  GoTemplatesRootPath : String
  Data : GoMap
  IsServer : Bool
  Port : String

/-- One entry of the trace of `CreateKubernetesFiles`: a call to a collaborator, with the error
it returned. -/
inductive KubeEvent where
  | CreateDirectories (path : String) (err : Option Fault)
  | CopyFile (dest src : String) (err : Option Fault)
  | Execute (filePaths : List String) (data : GoMap) (err : Option Fault)

/-- The collaborators of the copier (`strings.ToLower`, package `utils`, package `executor`),
none of which is among the sources, taken as parameters. A call with effects receives the trace
so far. -/
structure KubeCollaborators where
  ToLower : String → String
  CreateDirectories : List KubeEvent → String → Option Fault
  CopyFile : List KubeEvent → String → String → Option Fault
  Execute : List KubeEvent → List String → GoMap → Option Fault

/-- `NewCopier`: the data map gets the three names and, for a server, port and flag; the struct
literal sets `GoTemplatesRootPath`, `NodeDirectoryName` and `Data` only, so `IsServer` and `Port`
keep the zero values of their types. -/
def NewCopier (K : KubeCollaborators) (userName repositoryName nodeName nodeDirectoryName
    goTemplatesRootPath : String) (isServer : Bool) (serverPort : String) : Copier :=
  let data : GoMap :=
    [("RepositoryName", JValue.string repositoryName),
      ("NodeName", JValue.string (K.ToLower nodeName)),
      ("UserName", JValue.string userName)]
  let data1 : GoMap :=
    if isServer then
      (data.assign "ServerPort" (JValue.string serverPort)).assign "IsServer"
        (JValue.bool isServer)
    else data
  { GoTemplatesRootPath := goTemplatesRootPath,
    NodeDirectoryName := nodeDirectoryName,
    Data := data1,
    IsServer := false,
    Port := "" }

/-- Lines 60-67 of `CreateKubernetesFiles`: copy the deployment template, then render the copied
files. `made` are the calls of this run so far, `filePaths` the files copied so far. -/
def copyDeployment (K : KubeCollaborators) (c : Copier) (past made : List KubeEvent)
    (filePaths : List String) : List KubeEvent × Option Fault :=
  let targetKubernetesDeploymentFileName := c.NodeDirectoryName ++ Path ++ "/" ++ DeploymentFile
  let src := c.GoTemplatesRootPath ++ Path ++ "/" ++ DeploymentFile
  match K.CopyFile (past ++ made) targetKubernetesDeploymentFileName src with
  | some err =>
    (made ++ [KubeEvent.CopyFile targetKubernetesDeploymentFileName src (some err)], some err)
  | none =>
    let made1 := made ++ [KubeEvent.CopyFile targetKubernetesDeploymentFileName src none]
    let filePaths1 := filePaths ++ [targetKubernetesDeploymentFileName]
    (made1 ++ [KubeEvent.Execute filePaths1 c.Data (K.Execute (past ++ made1) filePaths1 c.Data)],
      K.Execute (past ++ made1) filePaths1 c.Data)

/-- `CreateKubernetesFiles`: the directory, the service template when `c.IsServer`, the
deployment template, the rendering. Returns the calls made and the error. -/
def CreateKubernetesFiles (K : KubeCollaborators) (c : Copier) (past : List KubeEvent) :
    List KubeEvent × Option Fault :=
  let destKubernetesDirectory := c.NodeDirectoryName ++ Path
  match K.CreateDirectories past destKubernetesDirectory with
  | some err => ([KubeEvent.CreateDirectories destKubernetesDirectory (some err)], some err)
  | none =>
    let made := [KubeEvent.CreateDirectories destKubernetesDirectory none]
    if c.IsServer then
      let targetKubernetesServiceFileName := c.NodeDirectoryName ++ Path ++ "/" ++ ServiceFile
      let src := c.GoTemplatesRootPath ++ Path ++ "/" ++ ServiceFile
      match K.CopyFile (past ++ made) targetKubernetesServiceFileName src with
      | some err =>
        (made ++ [KubeEvent.CopyFile targetKubernetesServiceFileName src (some err)], some err)
      | none =>
        copyDeployment K c past
          (made ++ [KubeEvent.CopyFile targetKubernetesServiceFileName src none])
          [targetKubernetesServiceFileName]
    else copyDeployment K c past made []

/-! ## Vocabulary of the statements -/

/-- The calls of `processNode` in a trace, in order, each with the error it returned. -/
def processNodeCalls : List Event → List (CoreNode × Option Fault)
  | [] => []
  | Event.processNode n err :: evs => (n, err) :: processNodeCalls evs
  | _ :: evs => processNodeCalls evs

/-- The event is a call to one of the two project-level finishers (constructor or create step). -/
def Event.isFinisher : Event → Bool
  | Event.deepsourceNewCopier _ => true
  | Event.CreateDeepSourceFiles _ => true
  | Event.readmeNewCopier _ => true
  | Event.CreateReadMeFile _ => true
  | _ => false

/-- The event is a call made inside `processNode`. -/
def Event.isNodeLevel : Event → Bool
  | Event.CreateDirectories _ _ => true
  | Event.NewLanguageNode _ _ => true
  | Event.Process _ _ _ => true
  | _ => false


/-- The node an edge's source identifier resolves to: the first node, in node order, whose
identifier is `src`. All three scans of the converter stop at this node. -/
def sourceNode (src : String) (nodes : List Node) : Option Node :=
  nodes.find? (fun n => decide (src = n.ID))

/-- The REST client config of `edge`, if any, can be filled: the node its source resolves to, if
any, has a REST server config. -/
def servesRest (nodes : List Node) (edge : Edge) : Bool :=
  match edge.ConsumerData.RestClientConfig, sourceNode edge.Src nodes with
  | some _, some n => n.ConsumerData.RestServerConfig.isSome
  | _, _ => true

/-- The gRPC client config of `edge`, if any, can be filled: the node its source resolves to, if
any, has a gRPC server config. -/
def servesGrpc (nodes : List Node) (edge : Edge) : Bool :=
  match edge.ConsumerData.GrpcClientConfig, sourceNode edge.Src nodes with
  | some _, some n => n.ConsumerData.GrpcServerConfig.isSome
  | _, _ => true

/-- Every client config of `edge` finds the server config it reads. -/
def Served (nodes : List Node) (edge : Edge) : Prop :=
  servesRest nodes edge = true ∧ servesGrpc nodes edge = true

instance (nodes : List Node) (edge : Edge) : Decidable (Served nodes edge) := by
  unfold Served; infer_instance

/-- The edges of `c` after enrichment, each taken through the loop body on its own. -/
def enrichedEdges (c : CompageJson) : List Edge :=
  c.Edges.map (fun e => (populateEdge c.Nodes e).1)

/-! ## Concrete topologies used as witnesses and counterexamples -/

/-- A node with the given identifier and name and nothing else. -/
def plainNode (id name : String) : Node :=
  { ID := id, ConsumerData :=
      { Name := name, Language := "", Template := "", RestServerConfig := none,
        GrpcServerConfig := none } }

/-- An edge with the given source and external-node name and no client config. -/
def plainEdge (src externalNode : String) : Edge :=
  { Src := src, ConsumerData :=
      { ExternalNode := externalNode, RestClientConfig := none, GrpcClientConfig := none } }

/-- One node `n1` named `svc-a`, one edge from `n1` that already names `other`. -/
def topologyNamedEdge : CompageJson :=
  { Nodes := [plainNode "n1" "svc-a"], Edges := [plainEdge "n1" "other"] }

/-- One node `n1` named `svc-a`, one edge from `n1` without an external-node name. -/
def topologyUnnamedEdge : CompageJson :=
  { Nodes := [plainNode "n1" "svc-a"], Edges := [plainEdge "n1" ""] }

/-- A node that exposes a REST server with the given schema document on port 8080. -/
def restNode (id name doc : String) : Node :=
  { ID := id, ConsumerData :=
      { Name := name, Language := "", Template := "",
        RestServerConfig := some { Port := "8080", OpenApiFileYamlContent := doc },
        GrpcServerConfig := none } }

/-- An edge with a REST client config whose schema document is `doc`. -/
def restEdge (src externalNode doc : String) : Edge :=
  { Src := src, ConsumerData :=
      { ExternalNode := externalNode,
        RestClientConfig := some { Port := "8080", OpenApiFileYamlContent := doc },
        GrpcClientConfig := none } }

/-- The scenario of the spec: node `n1` named `svc-a` serving `openapi: 3.0`, and an edge from
`n1` with a REST client config whose schema is unset. -/
def topologyRestScenario : CompageJson :=
  { Nodes := [restNode "n1" "svc-a" "openapi: 3.0"], Edges := [restEdge "n1" "" ""] }

/-- Two nodes share the identifier `n1`; the first serves `openapi: A`, the second `openapi: B`.
One edge from `n1` carries a REST client config. -/
def topologyDuplicateIds : CompageJson :=
  { Nodes := [restNode "n1" "svc-a" "openapi: A", restNode "n1" "svc-b" "openapi: B"],
    Edges := [restEdge "n1" "" ""] }

/-- Node `n1` named `svc-a` has no server config; the edge from `n1` carries a REST client
config with a stale schema document. -/
def topologyRestUnserved : CompageJson :=
  { Nodes := [plainNode "n1" "svc-a"], Edges := [restEdge "n1" "" "stale"] }

/-- Node `n1` has an empty name; the only edge has no external-node name and a source
identifier that no node carries. -/
def topologyEmptyNameUnresolved : CompageJson :=
  { Nodes := [plainNode "n1" ""], Edges := [plainEdge "missing" ""] }

/-- Node `n1` is named; the only edge has no external-node name and a source identifier that no
node carries (the scenario of the spec). -/
def topologyUnresolved : CompageJson :=
  { Nodes := [plainNode "n1" "svc-a"], Edges := [plainEdge "missing" ""] }

/-- Node `n1` has an empty name and no server config; the edge from `n1` names its external node
and carries a REST client config. -/
def topologyEmptyNameUnserved : CompageJson :=
  { Nodes := [plainNode "n1" ""], Edges := [restEdge "n1" "svc-x" ""] }

/-- Values for the constants of package `languages`, used where a statement is evaluated. -/
def sampleLanguages : Languages :=
  { Go := "go", Python := "python", Java := "java", Rust := "rust", JavaScript := "javascript",
    TypeScript := "typescript", Ruby := "ruby", Compage := "compage" }

/-- A codec that decodes every input to the empty map and every map to the topology `c`: the
situation in which the typed decoding of the input is `c`. -/
def codecYielding (c : CompageJson) : JsonCodec :=
  { unmarshalMap := fun _ => .ok [], decodeCompageJson := fun _ => .ok c }

/-- A serialized node record. -/
def recordNode (id name : String) : JValue :=
  JValue.object [("id", JValue.string id),
    ("consumerData", JValue.object [("name", JValue.string name)])]

/-- A serialized topology whose `nodes` member is a sequence of records and whose `edges` member
is an (empty) mapping. -/
def serializedNodeSequence : GoMap :=
  [("nodes", JValue.array [recordNode "n1" "svc-a"]), ("edges", JValue.object [])]

/-- A serialized topology whose `edges` member is a sequence (the empty one) and whose `nodes`
member is a mapping. -/
def serializedEdgeSequence : GoMap :=
  [("nodes", JValue.object [("n1", recordNode "n1" "svc-a")]), ("edges", JValue.array [])]

/-- A codec for which the empty input is malformed, as it is for `encoding/json`
(`unexpected end of JSON input`), and every other input decodes to the empty map. -/
def codecRejectingEmpty : JsonCodec :=
  { unmarshalMap := fun s =>
      if s = "" then .error (Fault.error "unexpected end of JSON input") else .ok [],
    decodeCompageJson := fun _ => .ok { Edges := [], Nodes := [] } }

/-- The topology `topologyDuplicateIds` with its two nodes listed in the other order. -/
def topologyDuplicateIdsSwapped : CompageJson :=
  { Nodes := [restNode "n1" "svc-b" "openapi: B", restNode "n1" "svc-a" "openapi: A"],
    Edges := [restEdge "n1" "" ""] }

/-- Two nodes with distinct identifiers, `n2` serving REST, and two edges. -/
def topologyTwoNodes : CompageJson :=
  { Nodes := [plainNode "n1" "svc-a", restNode "n2" "svc-b" "openapi: B"],
    Edges := [restEdge "n2" "" "", plainEdge "n1" "named"] }

/-- The topology `topologyTwoNodes` with nodes and edges listed in the other order. -/
def topologyTwoNodesSwapped : CompageJson :=
  { Nodes := [restNode "n2" "svc-b" "openapi: B", plainNode "n1" "svc-a"],
    Edges := [plainEdge "n1" "named", restEdge "n2" "" ""] }

/-- Collaborators for which `languages.NewLanguageNode` rejects the node whose identifier is
`bad` and every other call succeeds; every language node is a Go node. -/
def collaboratorsRejecting (bad : String) : Collaborators :=
  { GetProjectDirectoryName := fun name => "/tmp/" ++ name,
    CreateDirectories := fun _ _ => none,
    NewLanguageNode := fun _ _ n =>
      if n.ID = bad then .error (Fault.error "unsupported protocol")
      else .ok { ID := n.ID, Name := n.Name, Language := "go" },
    AddValuesToContext := fun p n =>
      { CoreProject := p, LanguageNode := n, NodeDirectoryName := "/tmp/" ++ p.Name ++ "/" ++ n.Name },
    Process := fun _ _ _ => none,
    deepsourceNewCopier := fun _ _ => none,
    CreateDeepSourceFiles := fun _ _ => none,
    readmeNewCopier := fun _ _ => none,
    CreateReadMeFile := fun _ _ => none }

/-- A project with three nodes `a`, `b`, `c`, in this order. -/
def projectThreeNodes : Project :=
  { Name := "first-project",
    CompageJSON := { Nodes := [⟨"a", "svc-a"⟩, ⟨"b", "svc-b"⟩, ⟨"c", "svc-c"⟩] } }

/-- The tag of package `languages` that `runLanguageProcess` compares with, for each backend. -/
def Languages.tag (L : Languages) : Backend → String
  | Backend.golang => L.Go
  | Backend.python => L.Python
  | Backend.java => L.Java
  | Backend.rust => L.Rust
  | Backend.javascript => L.JavaScript
  | Backend.typescript => L.TypeScript
  | Backend.ruby => L.Ruby

/-- The seven language tags, in the order of the comparisons of `runLanguageProcess`. -/
def Languages.tags (L : Languages) : List String :=
  [L.Go, L.Python, L.Java, L.Rust, L.JavaScript, L.TypeScript, L.Ruby]

/-- Collaborators all of whose calls succeed and whose language nodes carry the node's name as
language: a node named `python` is a Python node. -/
def collaboratorsByName : Collaborators :=
  { GetProjectDirectoryName := fun name => "/tmp/" ++ name,
    CreateDirectories := fun _ _ => none,
    NewLanguageNode := fun _ _ n => .ok { ID := n.ID, Name := n.Name, Language := n.Name },
    AddValuesToContext := fun p n =>
      { CoreProject := p, LanguageNode := n, NodeDirectoryName := "/tmp/" ++ p.Name ++ "/" ++ n.Name },
    Process := fun _ _ _ => none,
    deepsourceNewCopier := fun _ _ => none,
    CreateDeepSourceFiles := fun _ _ => none,
    readmeNewCopier := fun _ _ => none,
    CreateReadMeFile := fun _ _ => none }

/-- A Python language node of the project `projectThreeNodes`, and its context. -/
def pythonValues : Values :=
  { CoreProject := projectThreeNodes,
    LanguageNode := { ID := "a", Name := "svc-a", Language := "python" },
    NodeDirectoryName := "/tmp/first-project/svc-a" }

/-- Collaborators for which every node is a Go node and every call succeeds except the `Process`
of a backend, which returns the error `e`. -/
def collaboratorsFailingBackend (e : Fault) : Collaborators :=
  { GetProjectDirectoryName := fun name => "/tmp/" ++ name,
    CreateDirectories := fun _ _ => none,
    NewLanguageNode := fun _ _ n => .ok { ID := n.ID, Name := n.Name, Language := "go" },
    AddValuesToContext := fun p n =>
      { CoreProject := p, LanguageNode := n, NodeDirectoryName := "/tmp/" ++ p.Name ++ "/" ++ n.Name },
    Process := fun _ _ _ => some e,
    deepsourceNewCopier := fun _ _ => none,
    CreateDeepSourceFiles := fun _ _ => none,
    readmeNewCopier := fun _ _ => none,
    CreateReadMeFile := fun _ _ => none }

/-- A project with the two nodes `node-1` and `node-2`. -/
def projectTwoNodes : Project :=
  { Name := "first-project",
    CompageJSON := { Nodes := [⟨"node-1", "svc-a"⟩, ⟨"node-2", "svc-b"⟩] } }

/-- Collaborators for which every call succeeds except `deepsource.NewCopier`, which returns the
error `e`. -/
def collaboratorsFailingDeepsource (e : Fault) : Collaborators :=
  { collaboratorsByName with deepsourceNewCopier := fun _ _ => some e }

/-- The finisher calls of a trace, in order. -/
def finisherCalls (trace : List Event) : List Event :=
  trace.filter Event.isFinisher

/-- A node that exposes a gRPC server with the given contract document on port 50051. -/
def grpcNode (id name doc : String) : Node :=
  { ID := id, ConsumerData :=
      { Name := name, Language := "", Template := "", RestServerConfig := none,
        GrpcServerConfig := some { Port := "50051", ProtoFileContent := doc } } }

/-- An edge with a gRPC client config whose contract document is `doc`. -/
def grpcEdge (src externalNode doc : String) : Edge :=
  { Src := src, ConsumerData :=
      { ExternalNode := externalNode, RestClientConfig := none,
        GrpcClientConfig := some { Port := "50051", ProtoFileContent := doc } } }

/-- Node `n1` named `svc-a` has no server config; the edge from `n1` carries a gRPC client
config with a stale contract document. -/
def topologyGrpcUnserved : CompageJson :=
  { Nodes := [plainNode "n1" "svc-a"], Edges := [grpcEdge "n1" "" "stale"] }

/-- Node `n1` serves gRPC with contract `service Greeter`; one edge from `n1` and one edge
from an identifier no node carries, both with a gRPC client config. -/
def topologyGrpcScenario : CompageJson :=
  { Nodes := [grpcNode "n1" "svc-a" "service Greeter"],
    Edges := [grpcEdge "n1" "" "", grpcEdge "missing" "other" "stale"] }

/-- A serialized topology with keyed nodes and edges and a further top-level member. -/
def serializedKeyed : GoMap :=
  [("nodes", JValue.object [("n1", recordNode "n1" "svc-a"), ("n2", recordNode "n2" "svc-b")]),
    ("edges", JValue.object []), ("version", JValue.string "v1")]

/-- Collaborators of the copier all of whose calls succeed; `ToLower` is the ASCII lower-casing. -/
def kubeAllSucceed : KubeCollaborators :=
  { ToLower := String.toLower,
    CreateDirectories := fun _ _ => none,
    CopyFile := fun _ _ _ => none,
    Execute := fun _ _ _ => none }

/-- The copier `NewCopier` returns for a server node listening on port 8080. -/
def copierForServer : Copier :=
  NewCopier kubeAllSucceed "mahendraintelops" "first-project-github" "svc-a"
    "/tmp/first-project/svc-a" "/templates/go" true "8080"

/-- Two nodes share the identifier `n1`, the first named `svc-a`, and neither has a server
config. The first edge from `n1` carries a REST client config; the second has no external-node
name and no client config. -/
def topologyNameUnreached : CompageJson :=
  { Nodes := [plainNode "n1" "svc-a", plainNode "n1" "svc-b"],
    Edges := [restEdge "n1" "" "stale", plainEdge "n1" ""] }

/-! ## Lemmas on the scans -/

theorem getExternalNodeForEdge_eq (src : String) (nodes : List Node) :
    getExternalNodeForEdge src nodes =
      match sourceNode src nodes with
      | some n => n.ConsumerData.Name
      | none => "" := by
  induction nodes with
  | nil => rfl
  | cons n nodes ih =>
    by_cases h : src = n.ID
    · simp [getExternalNodeForEdge, sourceNode, List.find?, h]
    · simpa [getExternalNodeForEdge, sourceNode, List.find?, h] using ih

theorem getOpenApiFileYamlContentForEdge_eq (src : String) (nodes : List Node) :
    getOpenApiFileYamlContentForEdge src nodes =
      match sourceNode src nodes with
      | some n =>
        match n.ConsumerData.RestServerConfig with
        | none => .error Fault.nilDereference
        | some cfg => .ok cfg.OpenApiFileYamlContent
      | none => .ok "" := by
  induction nodes with
  | nil => rfl
  | cons n nodes ih =>
    by_cases h : src = n.ID
    · simp [getOpenApiFileYamlContentForEdge, sourceNode, List.find?, h]
    · simpa [getOpenApiFileYamlContentForEdge, sourceNode, List.find?, h] using ih

theorem getProtoFileContentForEdge_eq (src : String) (nodes : List Node) :
    getProtoFileContentForEdge src nodes =
      match sourceNode src nodes with
      | some n =>
        match n.ConsumerData.GrpcServerConfig with
        | none => .error Fault.nilDereference
        | some cfg => .ok cfg.ProtoFileContent
      | none => .ok "" := by
  induction nodes with
  | nil => rfl
  | cons n nodes ih =>
    by_cases h : src = n.ID
    · simp [getProtoFileContentForEdge, sourceNode, List.find?, h]
    · simpa [getProtoFileContentForEdge, sourceNode, List.find?, h] using ih

theorem sourceNode_isSome_of_mem (src : String) (nodes : List Node)
    (h : ∃ n ∈ nodes, src = n.ID) : ∃ n, sourceNode src nodes = some n := by
  obtain ⟨n, hn, hsrc⟩ := h
  cases hf : sourceNode src nodes with
  | some m => exact ⟨m, rfl⟩
  | none =>
    have := List.find?_eq_none.mp hf n hn
    simp [hsrc] at this

theorem sourceNode_some (src : String) (nodes : List Node) (n : Node)
    (h : sourceNode src nodes = some n) : n ∈ nodes ∧ src = n.ID := by
  refine ⟨List.mem_of_find?_eq_some h, ?_⟩
  simpa using List.find?_some h

/-! ## Lemmas on the enrichment of one edge -/

theorem fillExternalNode_src (nodes : List Node) (e : Edge) :
    (fillExternalNode nodes e).Src = e.Src := by
  unfold fillExternalNode; split <;> rfl

theorem fillExternalNode_rest (nodes : List Node) (e : Edge) :
    (fillExternalNode nodes e).ConsumerData.RestClientConfig = e.ConsumerData.RestClientConfig := by
  unfold fillExternalNode; split <;> rfl

theorem fillExternalNode_grpc (nodes : List Node) (e : Edge) :
    (fillExternalNode nodes e).ConsumerData.GrpcClientConfig = e.ConsumerData.GrpcClientConfig := by
  unfold fillExternalNode; split <;> rfl

theorem fillExternalNode_name (nodes : List Node) (e : Edge) :
    (fillExternalNode nodes e).ConsumerData.ExternalNode =
      if e.ConsumerData.ExternalNode = "" then getExternalNodeForEdge e.Src nodes
      else e.ConsumerData.ExternalNode := by
  unfold fillExternalNode; split <;> rfl

theorem fillOpenApi_frame (nodes : List Node) (e : Edge) :
    (fillOpenApi nodes e).1.Src = e.Src ∧
    (fillOpenApi nodes e).1.ConsumerData.ExternalNode = e.ConsumerData.ExternalNode ∧
    (fillOpenApi nodes e).1.ConsumerData.GrpcClientConfig = e.ConsumerData.GrpcClientConfig := by
  unfold fillOpenApi
  split
  · exact ⟨rfl, rfl, rfl⟩
  · split <;> exact ⟨rfl, rfl, rfl⟩

theorem fillProto_frame (nodes : List Node) (e : Edge) :
    (fillProto nodes e).1.Src = e.Src ∧
    (fillProto nodes e).1.ConsumerData.ExternalNode = e.ConsumerData.ExternalNode ∧
    (fillProto nodes e).1.ConsumerData.RestClientConfig = e.ConsumerData.RestClientConfig := by
  unfold fillProto
  split
  · exact ⟨rfl, rfl, rfl⟩
  · split <;> exact ⟨rfl, rfl, rfl⟩

theorem fillOpenApi_fault (nodes : List Node) (e : Edge) :
    (fillOpenApi nodes e).2 = if servesRest nodes e then none else some Fault.nilDereference := by
  unfold fillOpenApi servesRest
  rw [getOpenApiFileYamlContentForEdge_eq]
  cases e.ConsumerData.RestClientConfig with
  | none => simp
  | some rc =>
    cases sourceNode e.Src nodes with
    | none => simp
    | some n => cases hcfg : n.ConsumerData.RestServerConfig <;> simp [hcfg]

theorem fillProto_fault (nodes : List Node) (e : Edge) :
    (fillProto nodes e).2 = if servesGrpc nodes e then none else some Fault.nilDereference := by
  unfold fillProto servesGrpc
  rw [getProtoFileContentForEdge_eq]
  cases e.ConsumerData.GrpcClientConfig with
  | none => simp
  | some gc =>
    cases sourceNode e.Src nodes with
    | none => simp
    | some n => cases hcfg : n.ConsumerData.GrpcServerConfig <;> simp [hcfg]

theorem servesRest_fill (nodes : List Node) (e : Edge) :
    servesRest nodes (fillExternalNode nodes e) = servesRest nodes e := by
  unfold servesRest
  rw [fillExternalNode_rest, fillExternalNode_src]

theorem servesGrpc_fillOpenApi (nodes : List Node) (e : Edge) :
    servesGrpc nodes (fillOpenApi nodes (fillExternalNode nodes e)).1 = servesGrpc nodes e := by
  unfold servesGrpc
  rw [(fillOpenApi_frame nodes _).2.2, (fillOpenApi_frame nodes _).1, fillExternalNode_grpc,
    fillExternalNode_src]

theorem populateEdge_eq (nodes : List Node) (e : Edge) :
    populateEdge nodes e =
      if (fillOpenApi nodes (fillExternalNode nodes e)).2 = none then
        fillProto nodes (fillOpenApi nodes (fillExternalNode nodes e)).1
      else fillOpenApi nodes (fillExternalNode nodes e) := by
  unfold populateEdge
  rcases h : fillOpenApi nodes (fillExternalNode nodes e) with ⟨e1, _ | f⟩ <;> simp

/-- The fault of one loop iteration: none exactly when the edge is served, and a nil
dereference otherwise. -/
theorem populateEdge_fault (nodes : List Node) (e : Edge) :
    (populateEdge nodes e).2 =
      if servesRest nodes e && servesGrpc nodes e then none else some Fault.nilDereference := by
  rw [populateEdge_eq, fillOpenApi_fault, servesRest_fill]
  cases hr : servesRest nodes e
  · simp [fillOpenApi_fault, servesRest_fill, hr]
  · simp [fillProto_fault, servesGrpc_fillOpenApi]

theorem populateEdge_fault_none_iff (nodes : List Node) (e : Edge) :
    (populateEdge nodes e).2 = none ↔ Served nodes e := by
  rw [populateEdge_fault]
  unfold Served
  cases servesRest nodes e <;> cases servesGrpc nodes e <;> simp

theorem populateEdge_src (nodes : List Node) (e : Edge) :
    (populateEdge nodes e).1.Src = e.Src := by
  rw [populateEdge_eq]
  split
  · rw [(fillProto_frame nodes _).1, (fillOpenApi_frame nodes _).1, fillExternalNode_src]
  · rw [(fillOpenApi_frame nodes _).1, fillExternalNode_src]

theorem populateEdge_name (nodes : List Node) (e : Edge) :
    (populateEdge nodes e).1.ConsumerData.ExternalNode =
      if e.ConsumerData.ExternalNode = "" then getExternalNodeForEdge e.Src nodes
      else e.ConsumerData.ExternalNode := by
  rw [populateEdge_eq]
  split
  · rw [(fillProto_frame nodes _).2.1, (fillOpenApi_frame nodes _).2.1, fillExternalNode_name]
  · rw [(fillOpenApi_frame nodes _).2.1, fillExternalNode_name]

/-! ## Lemmas on the enrichment loop -/

theorem populateEdges_of_served (nodes : List Node) (edges : List Edge)
    (h : ∀ e ∈ edges, Served nodes e) :
    populateEdges nodes edges = (edges.map (fun e => (populateEdge nodes e).1), none) := by
  induction edges with
  | nil => rfl
  | cons e edges ih =>
    have he : (populateEdge nodes e).2 = none :=
      (populateEdge_fault_none_iff nodes e).mpr (h e (List.mem_cons_self _ _))
    have ih1 := ih (fun x hx => h x (List.mem_cons_of_mem _ hx))
    unfold populateEdges
    rcases hp : populateEdge nodes e with ⟨e1, _ | f⟩
    · simp [ih1, hp]
    · rw [hp] at he; simp at he

theorem populateEdges_fault (nodes : List Node) (edges : List Edge) :
    (populateEdges nodes edges).2 =
      if ∀ e ∈ edges, Served nodes e then none else some Fault.nilDereference := by
  induction edges with
  | nil => simp [populateEdges]
  | cons e edges ih =>
    unfold populateEdges
    have hf := populateEdge_fault nodes e
    have hiff := populateEdge_fault_none_iff nodes e
    rcases hp : populateEdge nodes e with ⟨e1, _ | f⟩
    · have hs : Served nodes e := hiff.mp (by rw [hp])
      simp only [ih, List.forall_mem_cons, hs, true_and]
    · have hs : ¬ Served nodes e := fun hs => by
        have := hiff.mpr hs
        rw [hp] at this; simp at this
      rw [hp] at hf
      have hf2 : f = Fault.nilDereference := by
        simp only at hf
        split at hf
        · simp at hf
        · simpa using hf
      simp [hs, hf2]

theorem populateEdges_length (nodes : List Node) (edges : List Edge) :
    (populateEdges nodes edges).1.length = edges.length := by
  induction edges with
  | nil => rfl
  | cons e edges ih =>
    unfold populateEdges
    rcases hp : populateEdge nodes e with ⟨e1, _ | f⟩
    · simpa using ih
    · simp

theorem populateExternalNodeInfoInEdges_of_served (c : CompageJson)
    (h : ∀ e ∈ c.Edges, Served c.Nodes e) :
    populateExternalNodeInfoInEdges c =
      ({ c with Edges := c.Edges.map (fun e => (populateEdge c.Nodes e).1) }, none) := by
  unfold populateExternalNodeInfoInEdges
  rw [populateEdges_of_served c.Nodes c.Edges h]

theorem forall₂_map_self {α β : Type} (R : α → β → Prop) (f : α → β) (l : List α)
    (h : ∀ x ∈ l, R x (f x)) : List.Forall₂ R l (l.map f) := by
  induction l with
  | nil => exact List.Forall₂.nil
  | cons x l ih =>
    exact List.Forall₂.cons (h x (List.mem_cons_self _ _))
      (ih (fun y hy => h y (List.mem_cons_of_mem _ hy)))

/-! ## C1: external-node names after enrichment -/

/-- C1, counterexample to the claim as stated. In `topologyNamedEdge` the only edge's source
identifier is that of node `n1`, named `svc-a`; the edge already names `other`. Enrichment
completes and the edge still names `other`, not the matched node's name. -/
theorem populate_externalNode_counterexample :
    (∀ e ∈ topologyNamedEdge.Edges, ∃ n ∈ topologyNamedEdge.Nodes, e.Src = n.ID) ∧
    (populateExternalNodeInfoInEdges topologyNamedEdge).2 = none ∧
    ¬ (∀ e ∈ (populateExternalNodeInfoInEdges topologyNamedEdge).1.Edges,
        ∀ n ∈ topologyNamedEdge.Nodes, e.Src = n.ID →
          e.ConsumerData.ExternalNode = n.ConsumerData.Name) := by
  decide

/-- C1, as amended. In a topology in which every edge's source identifier is the identifier of
some node, and every client config finds the server config it reads, enrichment completes without
fault, and edge by edge: the source identifier resolves to a node (the first one carrying it), and
the external-node name afterwards is that node's name when the name was empty before, and the
name the edge already had otherwise. -/
theorem populate_externalNode_of_resolved (c : CompageJson)
    (hsrc : ∀ e ∈ c.Edges, ∃ n ∈ c.Nodes, e.Src = n.ID)
    (hserved : ∀ e ∈ c.Edges, Served c.Nodes e) :
    (populateExternalNodeInfoInEdges c).2 = none ∧
    List.Forall₂
      (fun e e' => ∃ n, sourceNode e.Src c.Nodes = some n ∧
        e'.ConsumerData.ExternalNode =
          if e.ConsumerData.ExternalNode = "" then n.ConsumerData.Name
          else e.ConsumerData.ExternalNode)
      c.Edges (populateExternalNodeInfoInEdges c).1.Edges := by
  rw [populateExternalNodeInfoInEdges_of_served c hserved]
  refine ⟨rfl, forall₂_map_self _ _ _ ?_⟩
  intro e he
  obtain ⟨n, hn⟩ := sourceNode_isSome_of_mem e.Src c.Nodes (hsrc e he)
  refine ⟨n, hn, ?_⟩
  rw [populateEdge_name, getExternalNodeForEdge_eq, hn]

/-- C1, witness: the amended statement at `topologyUnnamedEdge`, whose edge ends up naming
`svc-a`. -/
theorem populate_externalNode_of_resolved_witness :
    (∀ e ∈ topologyUnnamedEdge.Edges, ∃ n ∈ topologyUnnamedEdge.Nodes, e.Src = n.ID) ∧
    (∀ e ∈ topologyUnnamedEdge.Edges, Served topologyUnnamedEdge.Nodes e) ∧
    (populateExternalNodeInfoInEdges topologyUnnamedEdge).1.Edges = [plainEdge "n1" "svc-a"] ∧
    (populateExternalNodeInfoInEdges topologyUnnamedEdge).2 = none :=
  ⟨by decide, by decide, by decide,
    (populate_externalNode_of_resolved topologyUnnamedEdge (by decide) (by decide)).1⟩

/-! ## C2: the REST client schema after enrichment -/

theorem fillOpenApi_restClient (nodes : List Node) (e : Edge) (rc : RestClientConfig)
    (doc : String) (hrc : e.ConsumerData.RestClientConfig = some rc)
    (hdoc : getOpenApiFileYamlContentForEdge e.Src nodes = .ok doc) :
    (fillOpenApi nodes e).1.ConsumerData.RestClientConfig =
        some { rc with OpenApiFileYamlContent := doc } ∧
      (fillOpenApi nodes e).2 = none := by
  unfold fillOpenApi
  simp [hrc, hdoc]

theorem populateEdge_restClient (nodes : List Node) (e : Edge) (rc : RestClientConfig)
    (doc : String) (hrc : e.ConsumerData.RestClientConfig = some rc)
    (hdoc : getOpenApiFileYamlContentForEdge e.Src nodes = .ok doc) :
    (populateEdge nodes e).1.ConsumerData.RestClientConfig =
      some { rc with OpenApiFileYamlContent := doc } := by
  have hfill := fillOpenApi_restClient nodes (fillExternalNode nodes e) rc doc
    (by rw [fillExternalNode_rest, hrc]) (by rw [fillExternalNode_src, hdoc])
  rw [populateEdge_eq, if_pos hfill.2, (fillProto_frame nodes _).2.2, hfill.1]

/-- C2, counterexample to the claim as stated. In `topologyDuplicateIds` the edge carries a REST
client config and its source identifier `n1` matches a node whose REST server config has the
schema document `openapi: B`; enrichment completes and sets the edge's client schema to
`openapi: A`, the document of the first node with that identifier. -/
theorem populate_openApi_counterexample :
    (∃ e ∈ topologyDuplicateIds.Edges, ∃ n ∈ topologyDuplicateIds.Nodes,
      e.ConsumerData.RestClientConfig.isSome = true ∧ e.Src = n.ID ∧
      n.ConsumerData.RestServerConfig.map (fun cfg => cfg.OpenApiFileYamlContent)
        = some "openapi: B") ∧
    (populateExternalNodeInfoInEdges topologyDuplicateIds).2 = none ∧
    (populateExternalNodeInfoInEdges topologyDuplicateIds).1.Edges.map
      (fun e => e.ConsumerData.RestClientConfig.map (fun rc => rc.OpenApiFileYamlContent))
        = [some "openapi: A"] := by
  decide

/-- C2, as amended. In a topology in which every client config finds the server config it reads,
enrichment completes without fault, and edge by edge: when the edge carries a REST client config
`rc` and its source identifier resolves (first node carrying it) to a node whose REST server
config has schema document `D`, the edge's client config afterwards is `rc` with its schema
document replaced by exactly `D`, whatever it held before. -/
theorem populate_openApi_of_served (c : CompageJson)
    (hserved : ∀ e ∈ c.Edges, Served c.Nodes e) :
    (populateExternalNodeInfoInEdges c).2 = none ∧
    List.Forall₂
      (fun e e' => ∀ rc n cfg, e.ConsumerData.RestClientConfig = some rc →
        sourceNode e.Src c.Nodes = some n → n.ConsumerData.RestServerConfig = some cfg →
        e'.ConsumerData.RestClientConfig =
          some { rc with OpenApiFileYamlContent := cfg.OpenApiFileYamlContent })
      c.Edges (populateExternalNodeInfoInEdges c).1.Edges := by
  rw [populateExternalNodeInfoInEdges_of_served c hserved]
  refine ⟨rfl, forall₂_map_self _ _ _ ?_⟩
  intro e _ rc n cfg hrc hn hcfg
  refine populateEdge_restClient c.Nodes e rc cfg.OpenApiFileYamlContent hrc ?_
  rw [getOpenApiFileYamlContentForEdge_eq, hn]
  simp [hcfg]

/-- C2, witness: the scenario of the spec; the edge's client schema becomes `openapi: 3.0`. -/
theorem populate_openApi_of_served_witness :
    (∀ e ∈ topologyRestScenario.Edges, Served topologyRestScenario.Nodes e) ∧
    (populateExternalNodeInfoInEdges topologyRestScenario).1.Edges
      = [restEdge "n1" "svc-a" "openapi: 3.0"] ∧
    (populateExternalNodeInfoInEdges topologyRestScenario).2 = none :=
  ⟨by decide, by decide, (populate_openApi_of_served topologyRestScenario (by decide)).1⟩

/-! ## C3: a REST client config whose source node has no REST server -/

/-- C3, the code at the failing input. In `topologyRestUnserved` the edge's source node has no
REST server config. Enrichment does not complete: the scan dereferences the nil config pointer.
The client schema is not set to the empty value (it still holds `stale`), and `validate` ends
with the same fault instead of succeeding, although every node name and the edge's external-node
name (`svc-a`, already filled in) are non-empty. -/
theorem validate_rest_unserved (L : Languages) :
    (∀ e ∈ topologyRestUnserved.Edges, ∀ n, sourceNode e.Src topologyRestUnserved.Nodes = some n →
      e.ConsumerData.RestClientConfig.isSome = true ∧ n.ConsumerData.RestServerConfig = none) ∧
    populateExternalNodeInfoInEdges topologyRestUnserved =
      ({ topologyRestUnserved with Edges := [restEdge "n1" "svc-a" "stale"] },
        some Fault.nilDereference) ∧
    (validate L topologyRestUnserved).2 = some Fault.nilDereference := by
  refine ⟨by decide, by decide, ?_⟩
  have h : populateExternalNodeInfoInEdges topologyRestUnserved =
      ({ topologyRestUnserved with Edges := [restEdge "n1" "svc-a" "stale"] },
        some Fault.nilDereference) := by decide
  unfold validate
  rw [h]

/-! ## Lemmas on `validate` -/

theorem setDefaults_fields (L : Languages) (n : Node) :
    (setDefaults L n).ID = n.ID ∧
    (setDefaults L n).ConsumerData.Name = n.ConsumerData.Name ∧
    (setDefaults L n).ConsumerData.Language =
      (if n.ConsumerData.Language = "" then L.Go else n.ConsumerData.Language) ∧
    (setDefaults L n).ConsumerData.Template =
      (if n.ConsumerData.Template = "" then L.Compage else n.ConsumerData.Template) ∧
    (setDefaults L n).ConsumerData.RestServerConfig = n.ConsumerData.RestServerConfig ∧
    (setDefaults L n).ConsumerData.GrpcServerConfig = n.ConsumerData.GrpcServerConfig := by
  unfold setDefaults
  by_cases hl : n.ConsumerData.Language = "" <;> by_cases ht : n.ConsumerData.Template = "" <;>
    simp [hl, ht]

theorem validateNodes_of_named (L : Languages) (nodes : List Node)
    (h : ∀ n ∈ nodes, n.ConsumerData.Name ≠ "") :
    validateNodes L nodes = (nodes.map (setDefaults L), none) := by
  induction nodes with
  | nil => rfl
  | cons n nodes ih =>
    have hn : n.ConsumerData.Name ≠ "" := h n (List.mem_cons_self _ _)
    have ih1 := ih (fun x hx => h x (List.mem_cons_of_mem _ hx))
    simp [validateNodes, hn, ih1]

theorem validateNodes_fault (L : Languages) (nodes : List Node) :
    (validateNodes L nodes).2 =
      if ∀ n ∈ nodes, n.ConsumerData.Name ≠ "" then none
      else some (Fault.error "name should not be empty") := by
  induction nodes with
  | nil => simp [validateNodes]
  | cons n nodes ih =>
    by_cases hn : n.ConsumerData.Name = ""
    · simp [validateNodes, hn]
    · simp only [validateNodes, hn, if_false, ih, List.forall_mem_cons, ne_eq, not_false_eq_true,
        true_and]

theorem validateEdges_eq (edges : List Edge) :
    validateEdges edges =
      if ∀ e ∈ edges, e.ConsumerData.ExternalNode ≠ "" then none
      else some (Fault.error "externalNode should not be empty") := by
  induction edges with
  | nil => simp [validateEdges]
  | cons e edges ih =>
    by_cases he : e.ConsumerData.ExternalNode = ""
    · simp [validateEdges, he]
    · simp only [validateEdges, he, if_false, ih, List.forall_mem_cons, ne_eq, not_false_eq_true,
        true_and]

theorem validate_of_unserved (L : Languages) (c : CompageJson)
    (h : ¬ ∀ e ∈ c.Edges, Served c.Nodes e) :
    (validate L c).2 = some Fault.nilDereference := by
  have hf := populateEdges_fault c.Nodes c.Edges
  rw [if_neg h] at hf
  unfold validate populateExternalNodeInfoInEdges
  rcases hp : populateEdges c.Nodes c.Edges with ⟨edges1, r⟩
  rw [hp] at hf
  simp only at hf
  subst hf
  rfl

theorem validate_of_served (L : Languages) (c : CompageJson)
    (h : ∀ e ∈ c.Edges, Served c.Nodes e) :
    validate L c =
      if ∀ n ∈ c.Nodes, n.ConsumerData.Name ≠ "" then
        ({ Edges := enrichedEdges c, Nodes := c.Nodes.map (setDefaults L) },
          validateEdges (enrichedEdges c))
      else
        ({ Edges := enrichedEdges c, Nodes := (validateNodes L c.Nodes).1 },
          some (Fault.error "name should not be empty")) := by
  unfold validate
  rw [populateExternalNodeInfoInEdges_of_served c h]
  by_cases hn : ∀ n ∈ c.Nodes, n.ConsumerData.Name ≠ ""
  · rw [if_pos hn]
    simp only [validateNodes_of_named L c.Nodes hn]
    rfl
  · rw [if_neg hn]
    have hf := validateNodes_fault L c.Nodes
    rw [if_neg hn] at hf
    simp only
    rcases hv : validateNodes L c.Nodes with ⟨nodes1, r⟩
    rw [hv] at hf
    simp only at hf
    subst hf
    rfl

/-- What a successful `validate` implies and returns. -/
theorem validate_ok (L : Languages) (c : CompageJson) (hok : (validate L c).2 = none) :
    (∀ e ∈ c.Edges, Served c.Nodes e) ∧ (∀ n ∈ c.Nodes, n.ConsumerData.Name ≠ "") ∧
    (∀ e ∈ enrichedEdges c, e.ConsumerData.ExternalNode ≠ "") ∧
    (validate L c).1 = { Edges := enrichedEdges c, Nodes := c.Nodes.map (setDefaults L) } := by
  by_cases hs : ∀ e ∈ c.Edges, Served c.Nodes e
  · rw [validate_of_served L c hs] at hok ⊢
    by_cases hn : ∀ n ∈ c.Nodes, n.ConsumerData.Name ≠ ""
    · rw [if_pos hn] at hok ⊢
      refine ⟨hs, hn, ?_, rfl⟩
      simp only [validateEdges_eq] at hok
      by_contra hne
      rw [if_neg hne] at hok
      simp at hok
    · rw [if_neg hn] at hok
      simp at hok
  · rw [validate_of_unserved L c hs] at hok
    simp at hok

theorem GetCompageJson_of_decoded (J : JsonCodec) (L : Languages) (edgesOrder nodesOrder : ValuesOrder)
    (s : String) (x x1 : GoMap) (c : CompageJson) (hx : J.unmarshalMap s = .ok x)
    (hconv : ConvertMap edgesOrder nodesOrder x = .ok x1) (hc : J.decodeCompageJson x1 = .ok c) :
    GetCompageJson J L edgesOrder nodesOrder s =
      match (validate L c).2 with
      | some f => .error f
      | none => .ok (validate L c).1 := by
  unfold GetCompageJson
  rw [hx]; simp only; rw [hconv]; simp only; rw [hc]; simp only
  rcases validate L c with ⟨c1, _ | f⟩ <;> rfl

/-! ## C4: an edge whose source resolves to no node -/

/-- C4, counterexample to the claim as stated. `topologyEmptyNameUnresolved` contains an edge
whose external-node name is unset and whose source identifier matches no node, yet `validate`
fails with the name error, not the external-node error: the node loop runs first. -/
theorem validate_unresolved_counterexample :
    (∃ e ∈ topologyEmptyNameUnresolved.Edges, e.ConsumerData.ExternalNode = "" ∧
      ∀ n ∈ topologyEmptyNameUnresolved.Nodes, e.Src ≠ n.ID) ∧
    (validate sampleLanguages topologyEmptyNameUnresolved).2
      = some (Fault.error "name should not be empty") := by
  decide

/-- C4, as amended. In a topology in which every node's name is non-empty and every client config
finds the server config it reads, and which contains an edge whose external-node name is unset
and whose source identifier matches no node, `validate` fails with the error
`externalNode should not be empty`, and `GetCompageJson` returns that error and no topology for
every input that decodes to this topology. -/
theorem validate_unresolved_edge (L : Languages) (c : CompageJson)
    (hnames : ∀ n ∈ c.Nodes, n.ConsumerData.Name ≠ "")
    (hserved : ∀ e ∈ c.Edges, Served c.Nodes e)
    (hedge : ∃ e ∈ c.Edges, e.ConsumerData.ExternalNode = "" ∧ ∀ n ∈ c.Nodes, e.Src ≠ n.ID) :
    (validate L c).2 = some (Fault.error "externalNode should not be empty") ∧
    ∀ (J : JsonCodec) (edgesOrder nodesOrder : ValuesOrder) (s : String) (x x1 : GoMap),
      J.unmarshalMap s = .ok x → ConvertMap edgesOrder nodesOrder x = .ok x1 →
      J.decodeCompageJson x1 = .ok c →
      GetCompageJson J L edgesOrder nodesOrder s
        = .error (Fault.error "externalNode should not be empty") := by
  have hv : (validate L c).2 = some (Fault.error "externalNode should not be empty") := by
    rw [validate_of_served L c hserved, if_pos hnames]
    simp only [validateEdges_eq]
    rw [if_neg]
    intro hall
    obtain ⟨e, he, hempty, hno⟩ := hedge
    have hnone : sourceNode e.Src c.Nodes = none := by
      unfold sourceNode
      rw [List.find?_eq_none]
      intro n hn
      simpa using hno n hn
    refine hall (populateEdge c.Nodes e).1 (List.mem_map_of_mem _ he) ?_
    rw [populateEdge_name, if_pos hempty, getExternalNodeForEdge_eq, hnone]
  refine ⟨hv, ?_⟩
  intro J edgesOrder nodesOrder s x x1 hx hconv hc
  rw [GetCompageJson_of_decoded J L edgesOrder nodesOrder s x x1 c hx hconv hc, hv]

/-- C4, witness: the scenario of the spec, decoded by a codec that yields it. -/
theorem validate_unresolved_edge_witness :
    (∀ n ∈ topologyUnresolved.Nodes, n.ConsumerData.Name ≠ "") ∧
    (∀ e ∈ topologyUnresolved.Edges, Served topologyUnresolved.Nodes e) ∧
    (validate sampleLanguages topologyUnresolved).2
      = some (Fault.error "externalNode should not be empty") ∧
    GetCompageJson (codecYielding topologyUnresolved) sampleLanguages ValuesOrder.asWritten
      ValuesOrder.asWritten "" = .error (Fault.error "externalNode should not be empty") :=
  ⟨by decide, by decide,
    (validate_unresolved_edge sampleLanguages topologyUnresolved (by decide) (by decide)
      (by decide)).1,
    (validate_unresolved_edge sampleLanguages topologyUnresolved (by decide) (by decide)
      (by decide)).2 (codecYielding topologyUnresolved) ValuesOrder.asWritten
      ValuesOrder.asWritten "" [] [] rfl rfl rfl⟩

/-! ## C5: a node with an empty name -/

/-- C5, the code at the failing input. `topologyEmptyNameUnserved` contains a node whose name is
empty. Its edge carries a REST client config that the source node does not serve, so enrichment,
which runs before the node loop, dereferences a nil pointer: `validate` ends with that fault and
never reports `name should not be empty`. -/
theorem validate_empty_name_unserved (L : Languages) :
    (∃ n ∈ topologyEmptyNameUnserved.Nodes, n.ConsumerData.Name = "") ∧
    (validate L topologyEmptyNameUnserved).2 = some Fault.nilDereference ∧
    (validate L topologyEmptyNameUnserved).2 ≠ some (Fault.error "name should not be empty") := by
  have h : (validate L topologyEmptyNameUnserved).2 = some Fault.nilDereference :=
    validate_of_unserved L topologyEmptyNameUnserved (by decide)
  refine ⟨by decide, h, ?_⟩
  rw [h]
  decide

/-- The part of C5 the code keeps: when every client config finds the server config it reads, a
topology with an empty node name makes `validate` fail with `name should not be empty`, whatever
the edges' external-node names, and `GetCompageJson` returns that error and no topology. -/
theorem validate_empty_name_of_served (L : Languages) (c : CompageJson)
    (hserved : ∀ e ∈ c.Edges, Served c.Nodes e)
    (hname : ∃ n ∈ c.Nodes, n.ConsumerData.Name = "") :
    (validate L c).2 = some (Fault.error "name should not be empty") ∧
    ∀ (J : JsonCodec) (edgesOrder nodesOrder : ValuesOrder) (s : String) (x x1 : GoMap),
      J.unmarshalMap s = .ok x → ConvertMap edgesOrder nodesOrder x = .ok x1 →
      J.decodeCompageJson x1 = .ok c →
      GetCompageJson J L edgesOrder nodesOrder s
        = .error (Fault.error "name should not be empty") := by
  have hv : (validate L c).2 = some (Fault.error "name should not be empty") := by
    rw [validate_of_served L c hserved, if_neg]
    intro hall
    obtain ⟨n, hn, hempty⟩ := hname
    exact hall n hn hempty
  refine ⟨hv, ?_⟩
  intro J edgesOrder nodesOrder s x x1 hx hconv hc
  rw [GetCompageJson_of_decoded J L edgesOrder nodesOrder s x x1 c hx hconv hc, hv]

/-! ## C6: default language and template -/

/-- C6. When `validate` succeeds on a topology, node by node the language afterwards is the input
language if that was non-empty and `languages.Go` otherwise, the template afterwards is the input
template if non-empty and `languages.Compage` otherwise, and identifier and name are the input's.
In particular, the two constants being non-empty strings, no node of the validated topology has
an empty language or template. -/
theorem validate_defaults (L : Languages) (c : CompageJson) (hok : (validate L c).2 = none) :
    List.Forall₂
      (fun n n' =>
        n'.ID = n.ID ∧ n'.ConsumerData.Name = n.ConsumerData.Name ∧
        n'.ConsumerData.Language =
          (if n.ConsumerData.Language = "" then L.Go else n.ConsumerData.Language) ∧
        n'.ConsumerData.Template =
          (if n.ConsumerData.Template = "" then L.Compage else n.ConsumerData.Template))
      c.Nodes (validate L c).1.Nodes ∧
    (L.Go ≠ "" → L.Compage ≠ "" →
      ∀ n' ∈ (validate L c).1.Nodes,
        n'.ConsumerData.Language ≠ "" ∧ n'.ConsumerData.Template ≠ "") := by
  obtain ⟨_, _, _, hres⟩ := validate_ok L c hok
  rw [hres]
  refine ⟨forall₂_map_self _ _ _ ?_, ?_⟩
  · intro n _
    have h := setDefaults_fields L n
    exact ⟨h.1, h.2.1, h.2.2.1, h.2.2.2.1⟩
  · intro hgo hcompage n' hn'
    obtain ⟨n, _, rfl⟩ := List.mem_map.mp hn'
    have h := setDefaults_fields L n
    rw [h.2.2.1, h.2.2.2.1]
    constructor
    · split
      · exact hgo
      · assumption
    · split
      · exact hcompage
      · assumption

/-- C6, witness: the first scenario of the spec (one node `n1` named `svc-a`, one edge from it);
language and template of the node become `go` and `compage`. -/
theorem validate_defaults_witness :
    (validate sampleLanguages topologyUnnamedEdge).2 = none ∧
    (validate sampleLanguages topologyUnnamedEdge).1.Nodes.map
      (fun n => (n.ConsumerData.Language, n.ConsumerData.Template)) = [("go", "compage")] ∧
    ∀ n' ∈ (validate sampleLanguages topologyUnnamedEdge).1.Nodes,
      n'.ConsumerData.Language ≠ "" ∧ n'.ConsumerData.Template ≠ "" :=
  ⟨by decide, by decide,
    (validate_defaults sampleLanguages topologyUnnamedEdge (by decide)).2 (by decide)
      (by decide)⟩

/-! ## C7: a member that is a sequence -/

theorem GoMap.index_assign_ne (x : GoMap) (key key' : String) (v : JValue) (h : key ≠ key') :
    (x.assign key v).index key' = x.index key' := by
  unfold GoMap.index GoMap.assign
  rw [List.find?_cons_of_neg _ (by simpa using h)]
  congr 1
  induction x with
  | nil => rfl
  | cons p x ih =>
    rcases p with ⟨k, w⟩
    by_cases hk : k = key
    · subst hk
      simp only [List.filter_cons, List.find?_cons, decide_True, Bool.not_true, decide_eq_true_eq,
        h, decide_False]
      simpa using ih
    · by_cases hk' : k = key'
      · subst hk'
        simp [List.filter_cons, List.find?_cons, hk]
      · simpa [List.filter_cons, List.find?_cons, hk, hk'] using ih

theorem convertMember_array (o : ValuesOrder) (key : String) (x : GoMap) (items : List JValue)
    (h : x.index key = JValue.array items) :
    convertMember o key x = .error Fault.typeAssertion := by
  unfold convertMember
  rw [h]

theorem convertMember_index_ne (o : ValuesOrder) (key key' : String) (x x1 : GoMap)
    (hne : key ≠ key') (h : convertMember o key x = .ok x1) : x1.index key' = x.index key' := by
  unfold convertMember at h
  split at h
  · cases h; rfl
  · cases h; exact GoMap.index_assign_ne x key key' _ hne
  · cases h

theorem convertMember_fault (o : ValuesOrder) (key : String) (x : GoMap) (f : Fault)
    (h : convertMember o key x = .error f) : f = Fault.typeAssertion := by
  unfold convertMember at h
  split at h
  · cases h
  · cases h
  · cases h; rfl

/-- C7, counterexample to the claim as stated. For a serialized topology whose `nodes` member is
a sequence of records, and for one whose `edges` member is a sequence, `ConvertMap` does not
return: the type assertion to a mapping fails. -/
theorem ConvertMap_sequence_counterexample :
    serializedNodeSequence.index "nodes" = JValue.array [recordNode "n1" "svc-a"] ∧
    ConvertMap ValuesOrder.asWritten ValuesOrder.asWritten serializedNodeSequence
      = .error Fault.typeAssertion ∧
    serializedEdgeSequence.index "edges" = JValue.array [] ∧
    ConvertMap ValuesOrder.asWritten ValuesOrder.asWritten serializedEdgeSequence
      = .error Fault.typeAssertion := by
  refine ⟨by rfl, ?_, by rfl, ?_⟩
  · rfl
  · rfl

/-- C7, as amended. For every serialized topology whose `nodes` member or `edges` member is a
sequence, under every order of `maps.Values`, `ConvertMap` does not return normally: it ends in
the panic of a failed type assertion, and `GetCompageJson` ends in the same way on every input
that decodes to such a map. Only the mapping shape is accepted. -/
theorem ConvertMap_sequence (edgesOrder nodesOrder : ValuesOrder) (x : GoMap)
    (items : List JValue)
    (h : x.index "edges" = JValue.array items ∨ x.index "nodes" = JValue.array items) :
    ConvertMap edgesOrder nodesOrder x = .error Fault.typeAssertion ∧
    ∀ (J : JsonCodec) (L : Languages) (s : String), J.unmarshalMap s = .ok x →
      GetCompageJson J L edgesOrder nodesOrder s = .error Fault.typeAssertion := by
  have hconv : ConvertMap edgesOrder nodesOrder x = .error Fault.typeAssertion := by
    unfold ConvertMap
    rcases h with h | h
    · rw [convertMember_array edgesOrder "edges" x items h]
    · cases hedges : convertMember edgesOrder "edges" x with
      | error f => rw [convertMember_fault edgesOrder "edges" x f hedges]
      | ok x1 =>
        have hidx := convertMember_index_ne edgesOrder "edges" "nodes" x x1 (by decide) hedges
        exact convertMember_array nodesOrder "nodes" x1 items (hidx.trans h)
  refine ⟨hconv, ?_⟩
  intro J L s hx
  unfold GetCompageJson
  rw [hx]; simp only; rw [hconv]

/-- C7, witness: the amended statement at a topology whose `nodes` member is a sequence. -/
theorem ConvertMap_sequence_witness :
    ConvertMap ValuesOrder.reversed ValuesOrder.asWritten serializedNodeSequence
      = .error Fault.typeAssertion :=
  (ConvertMap_sequence ValuesOrder.reversed ValuesOrder.asWritten serializedNodeSequence
    [recordNode "n1" "svc-a"] (Or.inr (by rfl))).1

/-! ## C8: metadata -/

/-- C8, counterexample to the claim as stated. On the empty input, which `json.Unmarshal`
rejects, `GetMetadata` returns the nil map and not a map value without entries. -/
theorem GetMetadata_counterexample :
    codecRejectingEmpty.unmarshalMap "" = .error (Fault.error "unexpected end of JSON input") ∧
    GetMetadata codecRejectingEmpty "" = none ∧
    GetMetadata codecRejectingEmpty "" ≠ some [] := by
  refine ⟨by rfl, by rfl, ?_⟩
  intro h
  have h2 : GetMetadata codecRejectingEmpty "" = none := by rfl
  rw [h2] at h
  cases h

/-- C8, as amended. For every metadata input that `json.Unmarshal` rejects (the empty input, or
one that is not a valid JSON object), `GetMetadata` returns the nil map: no entries, no error,
but a null result. For every input that decodes, it returns the map with exactly the decoded
entries. -/
theorem GetMetadata_result (J : JsonCodec) (metadataInput : String) :
    (∀ f, J.unmarshalMap metadataInput = .error f → GetMetadata J metadataInput = none) ∧
    (∀ m, J.unmarshalMap metadataInput = .ok m → GetMetadata J metadataInput = some m) := by
  unfold GetMetadata
  constructor
  · intro f h; rw [h]
  · intro m h; rw [h]

/-! ## C9: the order of the collections -/

theorem sourceNode_perm (src : String) (nodes nodes' : List Node) (hperm : nodes'.Perm nodes)
    (hid : (nodes.map (fun n => n.ID)).Nodup) :
    sourceNode src nodes' = sourceNode src nodes := by
  cases h : sourceNode src nodes with
  | none =>
    unfold sourceNode at h ⊢
    rw [List.find?_eq_none] at h ⊢
    intro n hn
    exact h n (hperm.mem_iff.mp hn)
  | some n =>
    obtain ⟨hn, hsrc⟩ := sourceNode_some src nodes n h
    obtain ⟨m, hm⟩ := sourceNode_isSome_of_mem src nodes' ⟨n, hperm.mem_iff.mpr hn, hsrc⟩
    obtain ⟨hm', hsrc'⟩ := sourceNode_some src nodes' m hm
    have hmn : m = n :=
      List.inj_on_of_nodup_map hid (hperm.mem_iff.mp hm') hn (hsrc'.symm.trans hsrc)
    rw [hm, hmn]

theorem populateEdge_congr (nodes nodes' : List Node) (e : Edge)
    (h : ∀ src, sourceNode src nodes' = sourceNode src nodes) :
    populateEdge nodes' e = populateEdge nodes e := by
  have h1 : ∀ src, getExternalNodeForEdge src nodes' = getExternalNodeForEdge src nodes := by
    intro src; rw [getExternalNodeForEdge_eq, getExternalNodeForEdge_eq, h]
  have h2 : ∀ src, getOpenApiFileYamlContentForEdge src nodes'
      = getOpenApiFileYamlContentForEdge src nodes := by
    intro src
    rw [getOpenApiFileYamlContentForEdge_eq, getOpenApiFileYamlContentForEdge_eq, h]
  have h3 : ∀ src, getProtoFileContentForEdge src nodes'
      = getProtoFileContentForEdge src nodes := by
    intro src; rw [getProtoFileContentForEdge_eq, getProtoFileContentForEdge_eq, h]
  simp only [populateEdge, fillOpenApi, fillProto, fillExternalNode, h1, h2, h3]

theorem served_congr (nodes nodes' : List Node) (e : Edge)
    (h : ∀ src, sourceNode src nodes' = sourceNode src nodes) :
    Served nodes' e ↔ Served nodes e := by
  rw [← populateEdge_fault_none_iff, ← populateEdge_fault_none_iff, populateEdge_congr nodes nodes' e h]

/-- C9, counterexample to the claim as stated. `topologyDuplicateIds` and
`topologyDuplicateIdsSwapped` list the same two nodes in the two possible orders and have the same
edge. `validate` succeeds on both, and the enriched edge differs: its external-node name is
`svc-a` with schema `openapi: A` in one, `svc-b` with schema `openapi: B` in the other. -/
theorem validate_order_counterexample :
    topologyDuplicateIdsSwapped.Nodes.Perm topologyDuplicateIds.Nodes ∧
    topologyDuplicateIdsSwapped.Edges = topologyDuplicateIds.Edges ∧
    (validate sampleLanguages topologyDuplicateIds).2 = none ∧
    (validate sampleLanguages topologyDuplicateIdsSwapped).2 = none ∧
    (validate sampleLanguages topologyDuplicateIds).1.Edges
      = [restEdge "n1" "svc-a" "openapi: A"] ∧
    (validate sampleLanguages topologyDuplicateIdsSwapped).1.Edges
      = [restEdge "n1" "svc-b" "openapi: B"] := by
  refine ⟨List.Perm.swap _ _ _, by decide, by decide, by decide, by decide, by decide⟩

/-- C9, as amended. Let two topologies list the same nodes and the same edges in two orders, the
node identifiers being pairwise distinct. Then `validate` has the same outcome on both (the same
fault, or success on both), and on success every edge and every node has the same enriched
record in both: there are one map on edges and one map on nodes that give, record by record, both
validated topologies, which are therefore equal up to the order of their collections. -/
theorem validate_order (L : Languages) (c c' : CompageJson)
    (hnodes : c'.Nodes.Perm c.Nodes) (hedges : c'.Edges.Perm c.Edges)
    (hid : (c.Nodes.map (fun n => n.ID)).Nodup) :
    (validate L c').2 = (validate L c).2 ∧
    ((validate L c).2 = none →
      (∃ (enrich : Edge → Edge) (dflt : Node → Node),
        (validate L c).1.Edges = c.Edges.map enrich ∧
        (validate L c').1.Edges = c'.Edges.map enrich ∧
        (validate L c).1.Nodes = c.Nodes.map dflt ∧
        (validate L c').1.Nodes = c'.Nodes.map dflt) ∧
      (validate L c').1.Edges.Perm (validate L c).1.Edges ∧
      (validate L c').1.Nodes.Perm (validate L c).1.Nodes) := by
  have hsrc : ∀ src, sourceNode src c'.Nodes = sourceNode src c.Nodes :=
    fun src => sourceNode_perm src c.Nodes c'.Nodes hnodes hid
  have henr : enrichedEdges c' = c'.Edges.map (fun e => (populateEdge c.Nodes e).1) := by
    unfold enrichedEdges
    exact List.map_congr_left (fun e _ => by rw [populateEdge_congr c.Nodes c'.Nodes e hsrc])
  have henrperm : (enrichedEdges c').Perm (enrichedEdges c) := by
    rw [henr]; exact hedges.map _
  have hserved : (∀ e ∈ c'.Edges, Served c'.Nodes e) ↔ (∀ e ∈ c.Edges, Served c.Nodes e) := by
    constructor
    · intro h e he
      exact (served_congr c.Nodes c'.Nodes e hsrc).mp (h e (hedges.mem_iff.mpr he))
    · intro h e he
      exact (served_congr c.Nodes c'.Nodes e hsrc).mpr (h e (hedges.mem_iff.mp he))
  have hnamed : (∀ n ∈ c'.Nodes, n.ConsumerData.Name ≠ "") ↔
      (∀ n ∈ c.Nodes, n.ConsumerData.Name ≠ "") := by
    constructor
    · intro h n hn; exact h n (hnodes.mem_iff.mpr hn)
    · intro h n hn; exact h n (hnodes.mem_iff.mp hn)
  have hchecked : validateEdges (enrichedEdges c') = validateEdges (enrichedEdges c) := by
    rw [validateEdges_eq, validateEdges_eq]
    have : (∀ e ∈ enrichedEdges c', e.ConsumerData.ExternalNode ≠ "") ↔
        (∀ e ∈ enrichedEdges c, e.ConsumerData.ExternalNode ≠ "") := by
      constructor
      · intro h e he; exact h e (henrperm.mem_iff.mpr he)
      · intro h e he; exact h e (henrperm.mem_iff.mp he)
    simp only [this]
  by_cases hs : ∀ e ∈ c.Edges, Served c.Nodes e
  · have hs' := hserved.mpr hs
    rw [validate_of_served L c hs, validate_of_served L c' hs']
    by_cases hn : ∀ n ∈ c.Nodes, n.ConsumerData.Name ≠ ""
    · have hn' := hnamed.mpr hn
      rw [if_pos hn, if_pos hn']
      refine ⟨hchecked, fun _ => ⟨⟨fun e => (populateEdge c.Nodes e).1, setDefaults L, rfl, henr,
        rfl, rfl⟩, henrperm, hnodes.map _⟩⟩
    · have hn' : ¬ ∀ n ∈ c'.Nodes, n.ConsumerData.Name ≠ "" := fun h => hn (hnamed.mp h)
      rw [if_neg hn, if_neg hn']
      exact ⟨rfl, fun h => by simp at h⟩
  · have hs' : ¬ ∀ e ∈ c'.Edges, Served c'.Nodes e := fun h => hs (hserved.mp h)
    rw [validate_of_unserved L c hs, validate_of_unserved L c' hs']
    exact ⟨rfl, fun h => by simp at h⟩

/-- C9, witness: `topologyTwoNodes` and the same topology with nodes and edges swapped. -/
theorem validate_order_witness :
    topologyTwoNodesSwapped.Nodes.Perm topologyTwoNodes.Nodes ∧
    topologyTwoNodesSwapped.Edges.Perm topologyTwoNodes.Edges ∧
    (topologyTwoNodes.Nodes.map (fun n => n.ID)).Nodup ∧
    (validate sampleLanguages topologyTwoNodes).2 = none ∧
    (validate sampleLanguages topologyTwoNodesSwapped).2
      = (validate sampleLanguages topologyTwoNodes).2 :=
  ⟨List.Perm.swap _ _ _, List.Perm.swap _ _ _, by decide, by decide,
    (validate_order sampleLanguages topologyTwoNodes topologyTwoNodesSwapped
      (List.Perm.swap _ _ _) (List.Perm.swap _ _ _) (by decide)).1⟩

/-! ## Lemmas on the dispatcher -/

theorem processNodeCalls_append (a b : List Event) :
    processNodeCalls (a ++ b) = processNodeCalls a ++ processNodeCalls b := by
  induction a with
  | nil => rfl
  | cons ev a ih => cases ev <;> simp [processNodeCalls, ih]

theorem processNodeCalls_of_nodeLevel (l : List Event)
    (h : ∀ ev ∈ l, ev.isNodeLevel = true) : processNodeCalls l = [] := by
  induction l with
  | nil => rfl
  | cons ev l ih =>
    have hev := h ev (List.mem_cons_self _ _)
    have hl := ih (fun x hx => h x (List.mem_cons_of_mem _ hx))
    cases ev <;> simp_all [processNodeCalls, Event.isNodeLevel]

theorem mem_processNodeCalls (l : List Event) (n : CoreNode) (err : Option Fault)
    (h : Event.processNode n err ∈ l) : (n, err) ∈ processNodeCalls l := by
  induction l with
  | nil => cases h
  | cons ev l ih =>
    rcases List.mem_cons.mp h with h | h
    · subst h; simp [processNodeCalls]
    · have := ih h
      cases ev <;> simp [processNodeCalls, this]

theorem isFinisher_of_nodeLevel (ev : Event) (h : ev.isNodeLevel = true) :
    ev.isFinisher = false := by
  cases ev <;> simp_all [Event.isNodeLevel, Event.isFinisher]

theorem runLanguageProcess_nodeLevel (K : Collaborators) (L : Languages) (past : List Event)
    (languageNode : LanguageNode) (ctx : Values) :
    ∀ ev ∈ (runLanguageProcess K L past languageNode ctx).1, ev.isNodeLevel = true := by
  unfold runLanguageProcess callProcess
  intro ev hev
  repeat' split at hev
  all_goals simp at hev
  all_goals subst hev; rfl

theorem processNode_nodeLevel (K : Collaborators) (L : Languages) (past : List Event)
    (p : Project) (n : CoreNode) :
    ∀ ev ∈ (processNode K L past p n).1, ev.isNodeLevel = true := by
  unfold processNode
  intro ev hev
  split at hev
  · simp at hev; subst hev; rfl
  · simp only at hev
    split at hev
    · simp at hev
      rcases hev with hev | hev <;> subst hev <;> rfl
    · simp only [List.mem_append, List.mem_singleton] at hev
      rcases hev with (hev | hev) | hev
      · subst hev; rfl
      · subst hev; rfl
      · exact runLanguageProcess_nodeLevel K L _ _ _ ev hev

theorem finishProject_finisher (K : Collaborators) (p : Project) (past : List Event) :
    ∀ ev ∈ (finishProject K p past).1, ev.isFinisher = true := by
  unfold finishProject
  cases K.deepsourceNewCopier past p with
  | some err => simp [Event.isFinisher]
  | none =>
    simp only
    cases K.CreateDeepSourceFiles (past ++ [Event.deepsourceNewCopier none]) p with
    | some err => simp [Event.isFinisher]
    | none =>
      simp only
      cases K.readmeNewCopier
          (past ++ ([Event.deepsourceNewCopier none] ++ [Event.CreateDeepSourceFiles none])) p with
      | some err => simp [Event.isFinisher]
      | none => simp [Event.isFinisher]

theorem handleNodes_cons_failed (K : Collaborators) (L : Languages) (p : Project) (n : CoreNode)
    (nodes : List CoreNode) (past : List Event) (err : Fault)
    (h : (processNode K L past p n).2 = some err) :
    handleNodes K L p (n :: nodes) past =
      ((processNode K L past p n).1 ++ [Event.processNode n (some err)], some err) := by
  rcases hp : processNode K L past p n with ⟨made, r⟩
  rw [hp] at h
  simp only at h
  subst h
  simp only [handleNodes, hp]

theorem handleNodes_cons_done (K : Collaborators) (L : Languages) (p : Project) (n : CoreNode)
    (nodes : List CoreNode) (past : List Event) (h : (processNode K L past p n).2 = none) :
    handleNodes K L p (n :: nodes) past =
      (((processNode K L past p n).1 ++ [Event.processNode n none]) ++
          (handleNodes K L p nodes
            (past ++ ((processNode K L past p n).1 ++ [Event.processNode n none]))).1,
        (handleNodes K L p nodes
            (past ++ ((processNode K L past p n).1 ++ [Event.processNode n none]))).2) := by
  rcases hp : processNode K L past p n with ⟨made, r⟩
  rw [hp] at h
  simp only at h
  subst h
  simp only [handleNodes, hp]

/-- The trace of the node loop: it holds no finisher call, and either every node was processed
without error, once and in order, or the loop stopped at the first node on which `processNode`
returned an error, right after that call. -/
theorem handleNodes_trace (K : Collaborators) (L : Languages) (p : Project) :
    ∀ (nodes : List CoreNode) (past : List Event),
      (∀ ev ∈ (handleNodes K L p nodes past).1, ev.isFinisher = false) ∧
      (((handleNodes K L p nodes past).2 = none ∧
          processNodeCalls (handleNodes K L p nodes past).1 = nodes.map (fun n => (n, none))) ∨
        ∃ pre ni post e before, nodes = pre ++ ni :: post ∧
          (handleNodes K L p nodes past).2 = some e ∧
          (handleNodes K L p nodes past).1 =
            before ++ ((processNode K L (past ++ before) p ni).1 ++
              [Event.processNode ni (some e)]) ∧
          (processNode K L (past ++ before) p ni).2 = some e ∧
          processNodeCalls before = pre.map (fun n => (n, none))) := by
  intro nodes
  induction nodes with
  | nil =>
    intro past
    refine ⟨?_, Or.inl ⟨rfl, rfl⟩⟩
    intro ev hev
    simp [handleNodes] at hev
  | cons n nodes ih =>
    intro past
    have hlevel := processNode_nodeLevel K L past p n
    cases hr : (processNode K L past p n).2 with
    | some err =>
      rw [handleNodes_cons_failed K L p n nodes past err hr]
      constructor
      · intro ev hev
        simp only [List.mem_append, List.mem_singleton] at hev
        rcases hev with hev | hev
        · exact isFinisher_of_nodeLevel ev (hlevel ev hev)
        · subst hev; rfl
      · refine Or.inr ⟨[], n, nodes, err, [], rfl, rfl, ?_, ?_, rfl⟩
        · simp
        · simpa using hr
    | none =>
      rw [handleNodes_cons_done K L p n nodes past hr]
      obtain ⟨hfin, hcases⟩ :=
        ih (past ++ ((processNode K L past p n).1 ++ [Event.processNode n none]))
      constructor
      · intro ev hev
        simp only [List.mem_append, List.mem_singleton] at hev
        rcases hev with (hev | hev) | hev
        · exact isFinisher_of_nodeLevel ev (hlevel ev hev)
        · subst hev; rfl
        · exact hfin ev hev
      · have hcalls : processNodeCalls ((processNode K L past p n).1 ++ [Event.processNode n none])
            = [(n, none)] := by
          rw [processNodeCalls_append, processNodeCalls_of_nodeLevel _ hlevel]
          rfl
        rcases hcases with ⟨hnone, hmap⟩ | ⟨pre, ni, post, e, before, hsplit, hres, htrace, hni, hpre⟩
        · refine Or.inl ⟨hnone, ?_⟩
          simp only
          rw [processNodeCalls_append, hcalls, hmap]
          rfl
        · refine Or.inr ⟨n :: pre, ni, post, e,
            ((processNode K L past p n).1 ++ [Event.processNode n none]) ++ before, ?_, hres, ?_,
            ?_, ?_⟩
          · rw [hsplit]; rfl
          · simp only
            rw [htrace]
            simp only [List.append_assoc]
          · rw [← List.append_assoc past]
            exact hni
          · rw [processNodeCalls_append, hcalls, hpre]
            rfl

theorem Handle_directory_failed (K : Collaborators) (L : Languages) (p : Project)
    (past : List Event) (err : Fault)
    (h : K.CreateDirectories past (K.GetProjectDirectoryName p.Name) = some err) :
    Handle K L p past =
      ([Event.CreateDirectories (K.GetProjectDirectoryName p.Name) (some err)], some err) := by
  unfold Handle
  simp only [h]

theorem Handle_nodes_failed (K : Collaborators) (L : Languages) (p : Project)
    (past : List Event) (err : Fault)
    (h : K.CreateDirectories past (K.GetProjectDirectoryName p.Name) = none)
    (hloop : (handleNodes K L p p.CompageJSON.Nodes
      (past ++ [Event.CreateDirectories (K.GetProjectDirectoryName p.Name) none])).2 = some err) :
    Handle K L p past =
      ([Event.CreateDirectories (K.GetProjectDirectoryName p.Name) none] ++
        (handleNodes K L p p.CompageJSON.Nodes
          (past ++ [Event.CreateDirectories (K.GetProjectDirectoryName p.Name) none])).1,
        some err) := by
  unfold Handle
  simp only [h]
  rcases hl : handleNodes K L p p.CompageJSON.Nodes
    (past ++ [Event.CreateDirectories (K.GetProjectDirectoryName p.Name) none]) with ⟨made1, r⟩
  rw [hl] at hloop
  simp only at hloop
  subst hloop
  rfl

theorem Handle_nodes_done (K : Collaborators) (L : Languages) (p : Project)
    (past : List Event)
    (h : K.CreateDirectories past (K.GetProjectDirectoryName p.Name) = none)
    (hloop : (handleNodes K L p p.CompageJSON.Nodes
      (past ++ [Event.CreateDirectories (K.GetProjectDirectoryName p.Name) none])).2 = none) :
    Handle K L p past =
      ([Event.CreateDirectories (K.GetProjectDirectoryName p.Name) none] ++
        (handleNodes K L p p.CompageJSON.Nodes
          (past ++ [Event.CreateDirectories (K.GetProjectDirectoryName p.Name) none])).1 ++
        (finishProject K p
          (past ++ ([Event.CreateDirectories (K.GetProjectDirectoryName p.Name) none] ++
            (handleNodes K L p p.CompageJSON.Nodes
              (past ++ [Event.CreateDirectories (K.GetProjectDirectoryName p.Name) none])).1))).1,
        (finishProject K p
          (past ++ ([Event.CreateDirectories (K.GetProjectDirectoryName p.Name) none] ++
            (handleNodes K L p p.CompageJSON.Nodes
              (past ++ [Event.CreateDirectories (K.GetProjectDirectoryName p.Name)
                none])).1))).2) := by
  unfold Handle
  simp only [h]
  rcases hl : handleNodes K L p p.CompageJSON.Nodes
    (past ++ [Event.CreateDirectories (K.GetProjectDirectoryName p.Name) none]) with ⟨made1, r⟩
  rw [hl] at hloop
  simp only at hloop
  subst hloop
  rfl

theorem handleNodes_append_of_done (K : Collaborators) (L : Languages) (p : Project)
    (pre rest : List CoreNode) :
    ∀ past : List Event, (handleNodes K L p pre past).2 = none →
      handleNodes K L p (pre ++ rest) past =
        ((handleNodes K L p pre past).1 ++
            (handleNodes K L p rest (past ++ (handleNodes K L p pre past).1)).1,
          (handleNodes K L p rest (past ++ (handleNodes K L p pre past).1)).2) := by
  induction pre with
  | nil =>
    intro past _
    simp [handleNodes]
  | cons n pre ih =>
    intro past h
    cases hr : (processNode K L past p n).2 with
    | some err =>
      rw [handleNodes_cons_failed K L p n pre past err hr] at h
      simp at h
    | none =>
      rw [handleNodes_cons_done K L p n pre past hr] at h ⊢
      rw [List.cons_append, handleNodes_cons_done K L p n (pre ++ rest) past hr]
      simp only at h ⊢
      rw [ih _ h]
      simp only [List.append_assoc]

/-- How the failing call of C10 comes about: when the project directory is created, the loop runs
through the nodes of `pre` without error and `processNode` then returns `e` on `ni`, the trace of
`Handle` holds the failing call of `processNode` on `ni`. -/
theorem Handle_first_failure (K : Collaborators) (L : Languages) (p : Project)
    (past : List Event) (pre post : List CoreNode) (ni : CoreNode) (e : Fault)
    (hdir : K.CreateDirectories past (K.GetProjectDirectoryName p.Name) = none)
    (hsplit : p.CompageJSON.Nodes = pre ++ ni :: post)
    (hpre : (handleNodes K L p pre
      (past ++ [Event.CreateDirectories (K.GetProjectDirectoryName p.Name) none])).2 = none)
    (hni : (processNode K L
      (past ++ [Event.CreateDirectories (K.GetProjectDirectoryName p.Name) none] ++
        (handleNodes K L p pre
          (past ++ [Event.CreateDirectories (K.GetProjectDirectoryName p.Name) none])).1)
      p ni).2 = some e) :
    Event.processNode ni (some e) ∈ (Handle K L p past).1 := by
  have hloop := handleNodes_append_of_done K L p pre (ni :: post) _ hpre
  rw [handleNodes_cons_failed K L p ni post _ e hni, ← hsplit] at hloop
  rw [Handle_nodes_failed K L p past e hdir (by rw [hloop])]
  rw [hloop]
  simp

/-! ## C10: `Handle` is fail-fast over the nodes -/

/-- C10. Whenever, in a run of `Handle`, the call of `processNode` on a node `ni` returns an error
`e`, then `Handle` returns exactly `e`; the node list splits as `pre ++ ni :: post` where the
calls of `processNode` of the whole run are those on the nodes of `pre`, once each, in order and
each without error, followed by the failing call on `ni` (so `ni` is the first node on which
`processNode` fails, and no node of `post` is processed); the trace ends with that call, `e`
being what `processNode` returned there; and no call of the run is a finisher call. -/
theorem Handle_fail_fast (K : Collaborators) (L : Languages) (p : Project) (past : List Event)
    (ni : CoreNode) (e : Fault)
    (hfail : Event.processNode ni (some e) ∈ (Handle K L p past).1) :
    (Handle K L p past).2 = some e ∧
    (∀ ev ∈ (Handle K L p past).1, ev.isFinisher = false) ∧
    ∃ pre post before, p.CompageJSON.Nodes = pre ++ ni :: post ∧
      processNodeCalls (Handle K L p past).1 = pre.map (fun n => (n, none)) ++ [(ni, some e)] ∧
      (Handle K L p past).1 =
        before ++ ((processNode K L (past ++ before) p ni).1 ++
          [Event.processNode ni (some e)]) ∧
      (processNode K L (past ++ before) p ni).2 = some e := by
  cases hdir : K.CreateDirectories past (K.GetProjectDirectoryName p.Name) with
  | some err =>
    rw [Handle_directory_failed K L p past err hdir] at hfail
    simp at hfail
  | none =>
    obtain ⟨hfin, hcases⟩ := handleNodes_trace K L p p.CompageJSON.Nodes
      (past ++ [Event.CreateDirectories (K.GetProjectDirectoryName p.Name) none])
    rcases hcases with ⟨hnone, hmap⟩ | ⟨pre, n, post, err, before, hsplit, hres, htrace, hn, hpre⟩
    · exfalso
      rw [Handle_nodes_done K L p past hdir hnone] at hfail
      simp only [List.mem_append, List.mem_singleton] at hfail
      rcases hfail with (hfail | hfail) | hfail
      · cases hfail
      · have := mem_processNodeCalls _ ni (some e) hfail
        rw [hmap] at this
        simp at this
      · have := finishProject_finisher K p _ _ hfail
        simp [Event.isFinisher] at this
    · rw [Handle_nodes_failed K L p past err hdir hres] at hfail ⊢
      have hcalls : processNodeCalls (handleNodes K L p p.CompageJSON.Nodes
          (past ++ [Event.CreateDirectories (K.GetProjectDirectoryName p.Name) none])).1
          = pre.map (fun n => (n, none)) ++ [(n, some err)] := by
        rw [htrace, processNodeCalls_append, processNodeCalls_append, hpre,
          processNodeCalls_of_nodeLevel _ (processNode_nodeLevel K L _ p n)]
        rfl
      have hmem : (ni, some e) ∈ pre.map (fun n => (n, (none : Option Fault))) ++
          [(n, some err)] := by
        rw [← hcalls]
        simp only [List.mem_append, List.mem_singleton] at hfail
        rcases hfail with hfail | hfail
        · cases hfail
        · exact mem_processNodeCalls _ ni (some e) hfail
      have heq : ni = n ∧ e = err := by
        simp only [List.mem_append, List.mem_map, List.mem_singleton, Prod.mk.injEq] at hmem
        rcases hmem with ⟨m, _, _, h2⟩ | ⟨h1, h2⟩
        · cases h2
        · exact ⟨h1, by simpa using h2⟩
      obtain ⟨rfl, rfl⟩ := heq
      refine ⟨rfl, ?_, pre, post,
        [Event.CreateDirectories (K.GetProjectDirectoryName p.Name) none] ++ before, hsplit,
        ?_, ?_, ?_⟩
      · intro ev hev
        simp only [List.mem_append, List.mem_singleton] at hev
        rcases hev with hev | hev
        · subst hev; rfl
        · exact hfin ev hev
      · simp only
        rw [processNodeCalls_append, hcalls]
        rfl
      · simp only
        rw [htrace]
        simp only [List.append_assoc]
      · rw [← List.append_assoc past]
        exact hn

/-- C10, witness: with collaborators that reject node `b`, the run on the project with nodes
`a`, `b`, `c` processes `a`, fails on `b` and returns that error; `c` and the finishers are never
reached. -/
theorem Handle_fail_fast_witness :
    Event.processNode ⟨"b", "svc-b"⟩ (some (Fault.error "unsupported protocol")) ∈
      (Handle (collaboratorsRejecting "b") sampleLanguages projectThreeNodes []).1 ∧
    (Handle (collaboratorsRejecting "b") sampleLanguages projectThreeNodes []).2
      = some (Fault.error "unsupported protocol") ∧
    processNodeCalls (Handle (collaboratorsRejecting "b") sampleLanguages projectThreeNodes []).1
      = [(⟨"a", "svc-a"⟩, none), (⟨"b", "svc-b"⟩, some (Fault.error "unsupported protocol"))] :=
  ⟨by decide,
    (Handle_fail_fast (collaboratorsRejecting "b") sampleLanguages projectThreeNodes []
      ⟨"b", "svc-b"⟩ (Fault.error "unsupported protocol") (by decide)).1,
    by decide⟩

/-! ## C11: the choice of the backend -/

/-- C11. The seven language tags being pairwise distinct, `runLanguageProcess` on a node whose
language is the tag of backend `b` makes exactly one call, the `Process` of `b`, and returns what
that call returned; on a node whose language is none of the seven tags it makes no call and
returns no error. -/
theorem runLanguageProcess_selects (K : Collaborators) (L : Languages) (past : List Event)
    (languageNode : LanguageNode) (ctx : Values) (hdistinct : L.tags.Nodup) :
    (∀ b : Backend, languageNode.Language = L.tag b →
      runLanguageProcess K L past languageNode ctx =
        ([Event.Process b ctx (K.Process past b ctx)], K.Process past b ctx)) ∧
    ((∀ b : Backend, languageNode.Language ≠ L.tag b) →
      runLanguageProcess K L past languageNode ctx = ([], none)) := by
  simp only [Languages.tags, List.nodup_cons, List.mem_cons, List.mem_singleton, not_or,
    List.not_mem_nil, not_false_eq_true, List.nodup_nil, and_true] at hdistinct
  obtain ⟨⟨h12, h13, h14, h15, h16, h17⟩, ⟨h23, h24, h25, h26, h27⟩, ⟨h34, h35, h36, h37⟩,
    ⟨h45, h46, h47⟩, ⟨h56, h57⟩, h67⟩ := hdistinct
  constructor
  · intro b hb
    unfold runLanguageProcess callProcess
    cases b <;> simp only [Languages.tag] at hb <;> rw [hb]
    · simp
    · simp [Ne.symm h12]
    · simp [Ne.symm h13, Ne.symm h23]
    · simp [Ne.symm h14, Ne.symm h24, Ne.symm h34]
    · simp [Ne.symm h15, Ne.symm h25, Ne.symm h35, Ne.symm h45]
    · simp [Ne.symm h16, Ne.symm h26, Ne.symm h36, Ne.symm h46, Ne.symm h56]
    · simp [Ne.symm h17, Ne.symm h27, Ne.symm h37, Ne.symm h47, Ne.symm h57, Ne.symm h67]
  · intro hnone
    unfold runLanguageProcess
    have g1 := hnone Backend.golang
    have g2 := hnone Backend.python
    have g3 := hnone Backend.java
    have g4 := hnone Backend.rust
    have g5 := hnone Backend.javascript
    have g6 := hnone Backend.typescript
    have g7 := hnone Backend.ruby
    simp only [Languages.tag] at g1 g2 g3 g4 g5 g6 g7
    simp [g1, g2, g3, g4, g5, g6, g7]

/-- C11, witness: with the tags of `sampleLanguages`, a Python node calls the Python backend and
nothing else. -/
theorem runLanguageProcess_selects_witness :
    sampleLanguages.tags.Nodup ∧
    runLanguageProcess collaboratorsByName sampleLanguages [] pythonValues.LanguageNode
        pythonValues
      = ([Event.Process Backend.python pythonValues none], none) :=
  ⟨by decide,
    (runLanguageProcess_selects collaboratorsByName sampleLanguages [] pythonValues.LanguageNode
      pythonValues (by decide)).1 Backend.python rfl⟩

/-! ## C12: the error of a backend -/

theorem processNode_of_backend (K : Collaborators) (L : Languages) (past : List Event)
    (p : Project) (n : CoreNode) (languageNode : LanguageNode)
    (hnode : K.NewLanguageNode past p.CompageJSON n = .ok languageNode)
    (hdir : K.CreateDirectories (past ++ [Event.NewLanguageNode n none])
      (K.AddValuesToContext p languageNode).NodeDirectoryName = none) :
    processNode K L past p n =
      (([Event.NewLanguageNode n none] ++
          [Event.CreateDirectories (K.AddValuesToContext p languageNode).NodeDirectoryName none])
        ++ (runLanguageProcess K L
          (past ++ ([Event.NewLanguageNode n none] ++
            [Event.CreateDirectories (K.AddValuesToContext p languageNode).NodeDirectoryName
              none]))
          languageNode (K.AddValuesToContext p languageNode)).1,
        (runLanguageProcess K L
          (past ++ ([Event.NewLanguageNode n none] ++
            [Event.CreateDirectories (K.AddValuesToContext p languageNode).NodeDirectoryName
              none]))
          languageNode (K.AddValuesToContext p languageNode)).2) := by
  unfold processNode
  simp only [hnode, hdir]

theorem Handle_result_of_first_failure (K : Collaborators) (L : Languages) (p : Project)
    (past : List Event) (pre post : List CoreNode) (ni : CoreNode) (e : Fault)
    (hdir : K.CreateDirectories past (K.GetProjectDirectoryName p.Name) = none)
    (hsplit : p.CompageJSON.Nodes = pre ++ ni :: post)
    (hpre : (handleNodes K L p pre
      (past ++ [Event.CreateDirectories (K.GetProjectDirectoryName p.Name) none])).2 = none)
    (hni : (processNode K L
      (past ++ [Event.CreateDirectories (K.GetProjectDirectoryName p.Name) none] ++
        (handleNodes K L p pre
          (past ++ [Event.CreateDirectories (K.GetProjectDirectoryName p.Name) none])).1)
      p ni).2 = some e) :
    (Handle K L p past).2 = some e := by
  have hloop := handleNodes_append_of_done K L p pre (ni :: post) _ hpre
  rw [handleNodes_cons_failed K L p ni post _ e hni, ← hsplit] at hloop
  rw [Handle_nodes_failed K L p past e hdir (by rw [hloop])]


/-- C12, counterexample to the claim as stated. The Go backend fails with the error
`template not found` on both nodes of `projectTwoNodes`. `processNode` returns that very error
for `node-1` and for `node-2`, and `Handle` returns it too: the error is the same for both nodes
and its message holds neither identifier, so nothing identifies the node in it. -/
theorem processNode_annotation_counterexample :
    (processNode (collaboratorsFailingBackend (Fault.error "template not found"))
      sampleLanguages [] projectTwoNodes ⟨"node-1", "svc-a"⟩).2
        = some (Fault.error "template not found") ∧
    (processNode (collaboratorsFailingBackend (Fault.error "template not found"))
      sampleLanguages [] projectTwoNodes ⟨"node-2", "svc-b"⟩).2
        = some (Fault.error "template not found") ∧
    (Handle (collaboratorsFailingBackend (Fault.error "template not found"))
      sampleLanguages projectTwoNodes []).2 = some (Fault.error "template not found") ∧
    ¬ ("node-1".toList <:+: "template not found".toList) ∧
    ¬ ("node-2".toList <:+: "template not found".toList) := by
  decide

/-- C12, as amended. When the language node of a node is built, its directory is created and the
backend selected by `runLanguageProcess` fails with error `e`, `processNode` returns exactly `e`,
unchanged and with nothing attached to it; and when this happens in a run of `Handle` (the project
directory was created and the nodes before this one were processed without error), `Handle`
returns exactly `e` as well. -/
theorem processNode_backend_error (K : Collaborators) (L : Languages) (past : List Event)
    (p : Project) (n : CoreNode) (languageNode : LanguageNode) (e : Fault)
    (hnode : K.NewLanguageNode past p.CompageJSON n = .ok languageNode)
    (hdir : K.CreateDirectories (past ++ [Event.NewLanguageNode n none])
      (K.AddValuesToContext p languageNode).NodeDirectoryName = none)
    (hbackend : (runLanguageProcess K L
      (past ++ ([Event.NewLanguageNode n none] ++
        [Event.CreateDirectories (K.AddValuesToContext p languageNode).NodeDirectoryName none]))
      languageNode (K.AddValuesToContext p languageNode)).2 = some e) :
    (processNode K L past p n).2 = some e ∧
    ∀ (past0 : List Event) (pre post : List CoreNode),
      K.CreateDirectories past0 (K.GetProjectDirectoryName p.Name) = none →
      p.CompageJSON.Nodes = pre ++ n :: post →
      (handleNodes K L p pre
        (past0 ++ [Event.CreateDirectories (K.GetProjectDirectoryName p.Name) none])).2 = none →
      past = past0 ++ [Event.CreateDirectories (K.GetProjectDirectoryName p.Name) none] ++
        (handleNodes K L p pre
          (past0 ++ [Event.CreateDirectories (K.GetProjectDirectoryName p.Name) none])).1 →
      (Handle K L p past0).2 = some e := by
  have hp : (processNode K L past p n).2 = some e := by
    rw [processNode_of_backend K L past p n languageNode hnode hdir]
    exact hbackend
  refine ⟨hp, ?_⟩
  intro past0 pre post hdir0 hsplit hpre hpast
  subst hpast
  exact Handle_result_of_first_failure K L p past0 pre post n e hdir0 hsplit hpre hp

/-- C12, witness: the first node of `projectTwoNodes`, reached right after the project directory
was created, with a Go backend that fails. -/
theorem processNode_backend_error_witness :
    (processNode (collaboratorsFailingBackend (Fault.error "template not found"))
      sampleLanguages [Event.CreateDirectories "/tmp/first-project" none] projectTwoNodes
      ⟨"node-1", "svc-a"⟩).2 = some (Fault.error "template not found") ∧
    (Handle (collaboratorsFailingBackend (Fault.error "template not found"))
      sampleLanguages projectTwoNodes []).2 = some (Fault.error "template not found") :=
  ⟨(processNode_backend_error (collaboratorsFailingBackend (Fault.error "template not found"))
      sampleLanguages [Event.CreateDirectories "/tmp/first-project" none] projectTwoNodes
      ⟨"node-1", "svc-a"⟩ ⟨"node-1", "svc-a", "go"⟩ (Fault.error "template not found")
      rfl rfl (by decide)).1,
    (processNode_backend_error (collaboratorsFailingBackend (Fault.error "template not found"))
      sampleLanguages [Event.CreateDirectories "/tmp/first-project" none] projectTwoNodes
      ⟨"node-1", "svc-a"⟩ ⟨"node-1", "svc-a", "go"⟩ (Fault.error "template not found")
      rfl rfl (by decide)).2 [] [] [⟨"node-2", "svc-b"⟩] rfl rfl rfl (by decide)⟩

/-! ## C13: the project-level finishers -/

theorem finishProject_cases (K : Collaborators) (p : Project) (past : List Event) :
    (∃ e, finishProject K p past =
        ([Event.deepsourceNewCopier (some e)], some (Fault.error "deep source copier is nil"))) ∨
    (∃ e, finishProject K p past =
        ([Event.deepsourceNewCopier none, Event.CreateDeepSourceFiles (some e)], some e)) ∨
    (∃ e, finishProject K p past =
        ([Event.deepsourceNewCopier none, Event.CreateDeepSourceFiles none,
          Event.readmeNewCopier (some e)], some (Fault.error "readme copier is nil"))) ∨
    (∃ r, finishProject K p past =
        ([Event.deepsourceNewCopier none, Event.CreateDeepSourceFiles none,
          Event.readmeNewCopier none, Event.CreateReadMeFile r], r)) := by
  unfold finishProject
  cases K.deepsourceNewCopier past p with
  | some err => exact Or.inl ⟨err, rfl⟩
  | none =>
    simp only
    cases K.CreateDeepSourceFiles (past ++ [Event.deepsourceNewCopier none]) p with
    | some err => exact Or.inr (Or.inl ⟨err, rfl⟩)
    | none =>
      simp only
      cases K.readmeNewCopier
          (past ++ ([Event.deepsourceNewCopier none] ++ [Event.CreateDeepSourceFiles none])) p with
      | some err => exact Or.inr (Or.inr (Or.inl ⟨err, rfl⟩))
      | none => exact Or.inr (Or.inr (Or.inr ⟨_, rfl⟩))

theorem filter_isFinisher_of_none (l : List Event) (h : ∀ ev ∈ l, ev.isFinisher = false) :
    l.filter Event.isFinisher = [] := by
  rw [List.filter_eq_nil_iff]
  intro ev hev
  simp [h ev hev]

theorem filter_isFinisher_of_all (l : List Event) (h : ∀ ev ∈ l, ev.isFinisher = true) :
    l.filter Event.isFinisher = l := by
  rw [List.filter_eq_self]
  exact h

/-- The finisher calls of a run in which the project directory was created and the node loop
ended without error are the calls of `finishProject`, and so is the result. -/
theorem Handle_finishers (K : Collaborators) (L : Languages) (p : Project) (past : List Event)
    (hdir : K.CreateDirectories past (K.GetProjectDirectoryName p.Name) = none)
    (hloop : (handleNodes K L p p.CompageJSON.Nodes
      (past ++ [Event.CreateDirectories (K.GetProjectDirectoryName p.Name) none])).2 = none) :
    ∃ past1, ((Handle K L p past).1.filter Event.isFinisher, (Handle K L p past).2)
      = finishProject K p past1 := by
  refine ⟨past ++ ([Event.CreateDirectories (K.GetProjectDirectoryName p.Name) none] ++
    (handleNodes K L p p.CompageJSON.Nodes
      (past ++ [Event.CreateDirectories (K.GetProjectDirectoryName p.Name) none])).1), ?_⟩
  rw [Handle_nodes_done K L p past hdir hloop]
  simp only [List.filter_append]
  rw [filter_isFinisher_of_none _ (handleNodes_trace K L p _ _).1,
    filter_isFinisher_of_all _ (finishProject_finisher K p _)]
  rfl

/-- C13, counterexample to the claim as stated. In a run in which every call succeeds the
finisher calls are those of deepsource (static-analysis config) first and those of the README
last, not README first. In a run in which `deepsource.NewCopier` fails with `permission denied`,
`Handle` returns the new error `deep source copier is nil`, not the finisher's own error. -/
theorem Handle_finishers_counterexample :
    finisherCalls (Handle collaboratorsByName sampleLanguages projectThreeNodes []).1
      = [Event.deepsourceNewCopier none, Event.CreateDeepSourceFiles none,
          Event.readmeNewCopier none, Event.CreateReadMeFile none] ∧
    processNodeCalls (Handle collaboratorsByName sampleLanguages projectThreeNodes []).1
      = [(⟨"a", "svc-a"⟩, none), (⟨"b", "svc-b"⟩, none), (⟨"c", "svc-c"⟩, none)] ∧
    finisherCalls
      (Handle (collaboratorsFailingDeepsource (Fault.error "permission denied")) sampleLanguages
        projectThreeNodes []).1 = [Event.deepsourceNewCopier (some (Fault.error "permission denied"))] ∧
    (Handle (collaboratorsFailingDeepsource (Fault.error "permission denied")) sampleLanguages
      projectThreeNodes []).2 = some (Fault.error "deep source copier is nil") := by
  decide

/-- C13, as amended. In a run of `Handle` in which the project directory is created and every
node is processed without error, the finisher calls are, in this order, `deepsource.NewCopier`,
`CreateDeepSourceFiles`, `readme.NewCopier`, `CreateReadMeFile`, each at most once and stopping
at the first that fails: a failing constructor makes `Handle` return the new error
`deep source copier is nil` or `readme copier is nil`, a failing create step makes it return that
step's own error, and `Handle` returns no error exactly when all four calls succeed. -/
theorem Handle_finishers_order (K : Collaborators) (L : Languages) (p : Project)
    (past : List Event)
    (hdir : K.CreateDirectories past (K.GetProjectDirectoryName p.Name) = none)
    (hloop : (handleNodes K L p p.CompageJSON.Nodes
      (past ++ [Event.CreateDirectories (K.GetProjectDirectoryName p.Name) none])).2 = none) :
    ((∃ e, finisherCalls (Handle K L p past).1 = [Event.deepsourceNewCopier (some e)] ∧
        (Handle K L p past).2 = some (Fault.error "deep source copier is nil")) ∨
      (∃ e, finisherCalls (Handle K L p past).1 =
          [Event.deepsourceNewCopier none, Event.CreateDeepSourceFiles (some e)] ∧
        (Handle K L p past).2 = some e) ∨
      (∃ e, finisherCalls (Handle K L p past).1 =
          [Event.deepsourceNewCopier none, Event.CreateDeepSourceFiles none,
            Event.readmeNewCopier (some e)] ∧
        (Handle K L p past).2 = some (Fault.error "readme copier is nil")) ∨
      (∃ r, finisherCalls (Handle K L p past).1 =
          [Event.deepsourceNewCopier none, Event.CreateDeepSourceFiles none,
            Event.readmeNewCopier none, Event.CreateReadMeFile r] ∧
        (Handle K L p past).2 = r)) ∧
    ((Handle K L p past).2 = none ↔
      finisherCalls (Handle K L p past).1 =
        [Event.deepsourceNewCopier none, Event.CreateDeepSourceFiles none,
          Event.readmeNewCopier none, Event.CreateReadMeFile none]) := by
  obtain ⟨past1, hfin⟩ := Handle_finishers K L p past hdir hloop
  have h1 : finisherCalls (Handle K L p past).1 = (finishProject K p past1).1 := by
    unfold finisherCalls; rw [← hfin]
  have h2 : (Handle K L p past).2 = (finishProject K p past1).2 := by rw [← hfin]
  rw [h1, h2]
  rcases finishProject_cases K p past1 with ⟨e, h⟩ | ⟨e, h⟩ | ⟨e, h⟩ | ⟨r, h⟩
  · rw [h]
    exact ⟨Or.inl ⟨e, rfl, rfl⟩, by simp⟩
  · rw [h]
    exact ⟨Or.inr (Or.inl ⟨e, rfl, rfl⟩), by simp⟩
  · rw [h]
    exact ⟨Or.inr (Or.inr (Or.inl ⟨e, rfl, rfl⟩)), by simp⟩
  · rw [h]
    refine ⟨Or.inr (Or.inr (Or.inr ⟨r, rfl, rfl⟩)), ?_⟩
    constructor
    · intro hr
      simp only at hr
      rw [hr]
    · intro hl
      simpa using hl

/-- C13, witness: a run in which every call succeeds. -/
theorem Handle_finishers_order_witness :
    collaboratorsByName.CreateDirectories []
      (collaboratorsByName.GetProjectDirectoryName projectThreeNodes.Name) = none ∧
    (Handle collaboratorsByName sampleLanguages projectThreeNodes []).2 = none :=
  ⟨rfl,
    (Handle_finishers_order collaboratorsByName sampleLanguages projectThreeNodes [] rfl
      (by decide)).2.mpr (by decide)⟩

/-! ## C14: what `validate` never changes -/

theorem populateEdges_src (nodes : List Node) (edges : List Edge) :
    (populateEdges nodes edges).1.map (fun e => e.Src) = edges.map (fun e => e.Src) := by
  induction edges with
  | nil => rfl
  | cons e edges ih =>
    unfold populateEdges
    have hsrc := populateEdge_src nodes e
    rcases hp : populateEdge nodes e with ⟨e1, _ | f⟩
    · rw [hp] at hsrc
      simp only [List.map_cons, ih]
      rw [show e1.Src = e.Src from hsrc]
    · rw [hp] at hsrc
      simp only [List.map_cons]
      rw [show e1.Src = e.Src from hsrc]

theorem validateNodes_frame (L : Languages) (nodes : List Node) :
    (validateNodes L nodes).1.map (fun n => (n.ID, n.ConsumerData.Name)) =
      nodes.map (fun n => (n.ID, n.ConsumerData.Name)) := by
  induction nodes with
  | nil => rfl
  | cons n nodes ih =>
    by_cases hn : n.ConsumerData.Name = ""
    · simp [validateNodes, hn]
    · have h := setDefaults_fields L n
      simp only [validateNodes, hn, if_false, List.map_cons, ih, h.1, h.2.1]

theorem validate_edges (L : Languages) (c : CompageJson) :
    (validate L c).1.Edges = (populateEdges c.Nodes c.Edges).1 := by
  unfold validate populateExternalNodeInfoInEdges
  rcases populateEdges c.Nodes c.Edges with ⟨edges1, _ | f⟩
  · simp only
    rcases validateNodes L c.Nodes with ⟨nodes1, _ | f⟩ <;> rfl
  · rfl

theorem validate_nodes (L : Languages) (c : CompageJson) :
    (validate L c).1.Nodes = c.Nodes ∨ (validate L c).1.Nodes = (validateNodes L c.Nodes).1 := by
  unfold validate populateExternalNodeInfoInEdges
  rcases populateEdges c.Nodes c.Edges with ⟨edges1, _ | f⟩
  · right
    simp only
    rcases validateNodes L c.Nodes with ⟨nodes1, _ | f⟩ <;> rfl
  · left; rfl

/-- C14. For every topology, whether `validate` succeeds, returns an error or is stopped by a
fault, the sequence of (identifier, name) pairs of the nodes afterwards is the sequence before,
the numbers of nodes and of edges are unchanged, and so is the sequence of the edges' source
identifiers. -/
theorem validate_frame (L : Languages) (c : CompageJson) :
    (validate L c).1.Nodes.map (fun n => (n.ID, n.ConsumerData.Name)) =
      c.Nodes.map (fun n => (n.ID, n.ConsumerData.Name)) ∧
    (validate L c).1.Nodes.length = c.Nodes.length ∧
    (validate L c).1.Edges.length = c.Edges.length ∧
    (validate L c).1.Edges.map (fun e => e.Src) = c.Edges.map (fun e => e.Src) := by
  have hnodes : (validate L c).1.Nodes.map (fun n => (n.ID, n.ConsumerData.Name)) =
      c.Nodes.map (fun n => (n.ID, n.ConsumerData.Name)) := by
    rcases validate_nodes L c with h | h
    · rw [h]
    · rw [h, validateNodes_frame]
  refine ⟨hnodes, ?_, ?_, ?_⟩
  · have := congrArg List.length hnodes
    simpa using this
  · rw [validate_edges, populateEdges_length]
  · rw [validate_edges, populateEdges_src]

/-! ## C15: the gRPC client contract after enrichment -/

theorem populateEdge_grpcClient (nodes : List Node) (e : Edge) (gc : GrpcClientConfig)
    (doc : String) (hrest : servesRest nodes e = true)
    (hgc : e.ConsumerData.GrpcClientConfig = some gc)
    (hdoc : getProtoFileContentForEdge e.Src nodes = .ok doc) :
    (populateEdge nodes e).1.ConsumerData.GrpcClientConfig =
      some { gc with ProtoFileContent := doc } := by
  have hfault : (fillOpenApi nodes (fillExternalNode nodes e)).2 = none := by
    rw [fillOpenApi_fault, servesRest_fill, hrest]; rfl
  have hframe := fillOpenApi_frame nodes (fillExternalNode nodes e)
  rw [populateEdge_eq, if_pos hfault]
  unfold fillProto
  rw [hframe.2.2, fillExternalNode_grpc, hgc]
  simp only
  rw [hframe.1, fillExternalNode_src, hdoc]

/-- C15, the code at the failing input. In `topologyGrpcUnserved` the edge carries a gRPC client
config and its source node has no gRPC server config. Enrichment does not set the contract
document to the empty value without error: the scan dereferences the nil config pointer, the
document still holds `stale`, and `validate` ends with the same fault. -/
theorem populate_proto_unserved (L : Languages) :
    (∀ e ∈ topologyGrpcUnserved.Edges, ∀ n, sourceNode e.Src topologyGrpcUnserved.Nodes = some n →
      e.ConsumerData.GrpcClientConfig.isSome = true ∧ n.ConsumerData.GrpcServerConfig = none) ∧
    populateExternalNodeInfoInEdges topologyGrpcUnserved =
      ({ topologyGrpcUnserved with Edges := [grpcEdge "n1" "svc-a" "stale"] },
        some Fault.nilDereference) ∧
    (validate L topologyGrpcUnserved).2 = some Fault.nilDereference := by
  refine ⟨by decide, by decide, ?_⟩
  exact validate_of_unserved L topologyGrpcUnserved (by decide)

/-- The part of C15 the code keeps. In a topology in which every client config finds the server
config it reads, enrichment completes without fault, and edge by edge: a gRPC client config `gc`
becomes `gc` with its contract document replaced by the contract document of the gRPC server
config of the node the source identifier resolves to, and by the empty value when no node
carries the source identifier. -/
theorem populate_proto_of_served (c : CompageJson)
    (hserved : ∀ e ∈ c.Edges, Served c.Nodes e) :
    (populateExternalNodeInfoInEdges c).2 = none ∧
    List.Forall₂
      (fun e e' => ∀ gc, e.ConsumerData.GrpcClientConfig = some gc →
        (∀ n cfg, sourceNode e.Src c.Nodes = some n →
          n.ConsumerData.GrpcServerConfig = some cfg →
          e'.ConsumerData.GrpcClientConfig =
            some { gc with ProtoFileContent := cfg.ProtoFileContent }) ∧
        (sourceNode e.Src c.Nodes = none →
          e'.ConsumerData.GrpcClientConfig = some { gc with ProtoFileContent := "" }))
      c.Edges (populateExternalNodeInfoInEdges c).1.Edges := by
  rw [populateExternalNodeInfoInEdges_of_served c hserved]
  refine ⟨rfl, forall₂_map_self _ _ _ ?_⟩
  intro e he gc hgc
  have hrest := (hserved e he).1
  constructor
  · intro n cfg hn hcfg
    refine populateEdge_grpcClient c.Nodes e gc cfg.ProtoFileContent hrest hgc ?_
    rw [getProtoFileContentForEdge_eq, hn]
    simp [hcfg]
  · intro hn
    refine populateEdge_grpcClient c.Nodes e gc "" hrest hgc ?_
    rw [getProtoFileContentForEdge_eq, hn]

/-- The statement `populate_proto_of_served` at `topologyGrpcScenario`. -/
theorem populate_proto_of_served_witness :
    (∀ e ∈ topologyGrpcScenario.Edges, Served topologyGrpcScenario.Nodes e) ∧
    (populateExternalNodeInfoInEdges topologyGrpcScenario).1.Edges
      = [grpcEdge "n1" "svc-a" "service Greeter", grpcEdge "missing" "other" ""] ∧
    (populateExternalNodeInfoInEdges topologyGrpcScenario).2 = none :=
  ⟨by decide, by decide, (populate_proto_of_served topologyGrpcScenario (by decide)).1⟩

/-! ## C16: flattening the keyed members -/

theorem GoMap.index_assign_same (x : GoMap) (key : String) (v : JValue) :
    (x.assign key v).index key = v := by
  simp [GoMap.index, GoMap.assign]

theorem GoMap.index_of_not_mem (x : GoMap) (key : String) (h : key ∉ x.map Prod.fst) :
    x.index key = JValue.null := by
  unfold GoMap.index
  have hnone : x.find? (fun p => decide (p.1 = key)) = none := by
    rw [List.find?_eq_none]
    intro p hp hkey
    exact h (List.mem_map.mpr ⟨p, hp, by simpa using hkey⟩)
  rw [hnone]

theorem GoMap.mem_keys_assign_ne (x : GoMap) (key key' : String) (v : JValue)
    (h : key' ≠ key) :
    key' ∈ (x.assign key v).map Prod.fst ↔ key' ∈ x.map Prod.fst := by
  unfold GoMap.assign
  simp only [List.map_cons, List.mem_cons, List.mem_map, List.mem_filter, Bool.not_eq_true',
    decide_eq_false_iff_not]
  constructor
  · rintro (h1 | ⟨p, ⟨hp, _⟩, hk⟩)
    · exact absurd h1 h
    · exact ⟨p, hp, hk⟩
  · rintro ⟨p, hp, hk⟩
    exact Or.inr ⟨p, ⟨hp, fun hpk => h (hk.symm.trans hpk)⟩, hk⟩

/-- One statement of `ConvertMap` on a member that is a mapping, null or absent. -/
theorem convertMember_ok (o : ValuesOrder) (key : String) (x : GoMap)
    (h : x.index key = JValue.null ∨ ∃ m, x.index key = JValue.object m) :
    ∃ x1, convertMember o key x = .ok x1 ∧
      (∀ m, x.index key = JValue.object m →
        ∃ vs, x1.index key = JValue.array vs ∧ vs.Perm (m.map Prod.snd)) ∧
      (∀ key', key' ≠ key →
        x1.index key' = x.index key' ∧ (key' ∈ x1.map Prod.fst ↔ key' ∈ x.map Prod.fst)) ∧
      (x.index key = JValue.null → x1 = x) := by
  rcases h with h | ⟨m, h⟩
  · refine ⟨x, ?_, ?_, ?_, fun _ => rfl⟩
    · unfold convertMember; rw [h]
    · intro m hm; rw [h] at hm; cases hm
    · intro key' _; exact ⟨rfl, Iff.rfl⟩
  · refine ⟨x.assign key (JValue.array (mapsValues o m)), ?_, ?_, ?_, ?_⟩
    · unfold convertMember; rw [h]
    · intro m' hm'
      rw [h] at hm'
      cases hm'
      exact ⟨mapsValues o m, GoMap.index_assign_same x key _, o.perm _⟩
    · intro key' hne
      exact ⟨GoMap.index_assign_ne x key key' _ (Ne.symm hne),
        GoMap.mem_keys_assign_ne x key key' _ hne⟩
    · intro hnull; rw [h] at hnull; cases hnull

/-- C16. For every serialized topology whose `nodes` and `edges` members are mappings (or nil),
under every order of `maps.Values`, `ConvertMap` returns normally a map in which each of the two
members that was a mapping is a sequence that is a permutation of that mapping's values (same
records, same multiplicities, keys dropped), every other top-level key is present or absent as
before and has the value it had, and an absent `nodes` or `edges` member is still absent. -/
theorem ConvertMap_mappings (edgesOrder nodesOrder : ValuesOrder) (x : GoMap)
    (hedges : x.index "edges" = JValue.null ∨ ∃ m, x.index "edges" = JValue.object m)
    (hnodes : x.index "nodes" = JValue.null ∨ ∃ m, x.index "nodes" = JValue.object m) :
    ∃ x1, ConvertMap edgesOrder nodesOrder x = .ok x1 ∧
      (∀ m, x.index "edges" = JValue.object m →
        ∃ vs, x1.index "edges" = JValue.array vs ∧ vs.Perm (m.map Prod.snd)) ∧
      (∀ m, x.index "nodes" = JValue.object m →
        ∃ vs, x1.index "nodes" = JValue.array vs ∧ vs.Perm (m.map Prod.snd)) ∧
      (∀ key, key ≠ "edges" → key ≠ "nodes" →
        x1.index key = x.index key ∧ (key ∈ x1.map Prod.fst ↔ key ∈ x.map Prod.fst)) ∧
      ("edges" ∉ x.map Prod.fst → "edges" ∉ x1.map Prod.fst) ∧
      ("nodes" ∉ x.map Prod.fst → "nodes" ∉ x1.map Prod.fst) := by
  obtain ⟨xe, hxe, hemap, heother, henull⟩ := convertMember_ok edgesOrder "edges" x hedges
  have hne : ("nodes" : String) ≠ "edges" := by decide
  have hnodes1 : xe.index "nodes" = JValue.null ∨ ∃ m, xe.index "nodes" = JValue.object m := by
    rw [(heother "nodes" hne).1]; exact hnodes
  obtain ⟨xn, hxn, hnmap, hnother, hnnull⟩ := convertMember_ok nodesOrder "nodes" xe hnodes1
  refine ⟨xn, ?_, ?_, ?_, ?_, ?_, ?_⟩
  · unfold ConvertMap; rw [hxe]; exact hxn
  · intro m hm
    obtain ⟨vs, hvs, hperm⟩ := hemap m hm
    exact ⟨vs, by rw [(hnother "edges" (Ne.symm hne)).1, hvs], hperm⟩
  · intro m hm
    exact hnmap m (by rw [(heother "nodes" hne).1]; exact hm)
  · intro key h1 h2
    exact ⟨((hnother key h2).1).trans (heother key h1).1,
      ((hnother key h2).2).trans (heother key h1).2⟩
  · intro habsent
    have hx : xe = x := henull (GoMap.index_of_not_mem x "edges" habsent)
    rw [(hnother "edges" (Ne.symm hne)).2, hx]
    exact habsent
  · intro habsent
    have habsent1 : "nodes" ∉ xe.map Prod.fst := by
      rw [(heother "nodes" hne).2]; exact habsent
    have hx : xn = xe := hnnull (GoMap.index_of_not_mem xe "nodes" habsent1)
    rw [hx]
    exact habsent1

/-- C16, witness: `serializedKeyed` under the reversing order; the two node records come out in
the other order and the member `version` is untouched. -/
theorem ConvertMap_mappings_witness :
    (∃ x1, ConvertMap ValuesOrder.reversed ValuesOrder.reversed serializedKeyed = .ok x1 ∧
      x1.index "version" = serializedKeyed.index "version") ∧
    (∃ x1, ConvertMap ValuesOrder.reversed ValuesOrder.reversed serializedKeyed = .ok x1 ∧
      x1.index "nodes" = JValue.array [recordNode "n2" "svc-b", recordNode "n1" "svc-a"]) :=
  ⟨(ConvertMap_mappings ValuesOrder.reversed ValuesOrder.reversed serializedKeyed
      (Or.inr ⟨[], rfl⟩) (Or.inr ⟨_, rfl⟩)).elim
      (fun x1 h => ⟨x1, h.1, (h.2.2.2.1 "version" (by decide) (by decide)).1⟩),
    ⟨_, rfl, rfl⟩⟩

/-! ## C17: the external-node name is filled only when absent -/

theorem sourceNode_of_first (src : String) (pre post : List Node) (n : Node)
    (hsrc : src = n.ID) (hpre : ∀ m ∈ pre, src ≠ m.ID) :
    sourceNode src (pre ++ n :: post) = some n := by
  induction pre with
  | nil => simp [sourceNode, List.find?, hsrc]
  | cons m pre ih =>
    have hm : src ≠ m.ID := hpre m (List.mem_cons_self _ _)
    have ih1 := ih (fun k hk => hpre k (List.mem_cons_of_mem _ hk))
    unfold sourceNode at ih1 ⊢
    rw [List.cons_append, List.find?_cons_of_neg _ (by simpa using hm)]
    exact ih1

/-- Whatever stops the loop, every edge afterwards is either untouched or the result of the loop
body on it. -/
theorem populateEdges_each (nodes : List Node) (edges : List Edge) :
    List.Forall₂ (fun e e' => e' = e ∨ e' = (populateEdge nodes e).1) edges
      (populateEdges nodes edges).1 := by
  induction edges with
  | nil => exact List.Forall₂.nil
  | cons e edges ih =>
    unfold populateEdges
    rcases hp : populateEdge nodes e with ⟨e1, _ | f⟩
    · exact List.Forall₂.cons (Or.inr (by rw [hp])) ih
    · refine List.Forall₂.cons (Or.inr (by rw [hp])) ?_
      exact List.forall₂_same.mpr (fun x _ => Or.inl rfl)

theorem served_of_populate_ok (c : CompageJson)
    (h : (populateExternalNodeInfoInEdges c).2 = none) : ∀ e ∈ c.Edges, Served c.Nodes e := by
  by_contra hs
  have hf := populateEdges_fault c.Nodes c.Edges
  rw [if_neg hs] at hf
  unfold populateExternalNodeInfoInEdges at h
  rw [hf] at h
  simp at h

/-- The part of C17 the code keeps. Edge by edge, in whatever way enrichment ends, an
external-node name that is non-empty before enrichment is the same afterwards, whatever the
edge's source identifier matches. When enrichment completes, an edge whose external-node name is
unset gets the name of the first node, in node order, that carries its source identifier: if the
nodes are `pre ++ n :: post`, `n` carries the identifier and no node of `pre` does, the name
afterwards is the name of `n`, whichever nodes of `post` share the identifier. -/
theorem populate_name_guard (c : CompageJson) :
    List.Forall₂
      (fun e e' => e.ConsumerData.ExternalNode ≠ "" →
        e'.ConsumerData.ExternalNode = e.ConsumerData.ExternalNode)
      c.Edges (populateExternalNodeInfoInEdges c).1.Edges ∧
    ((populateExternalNodeInfoInEdges c).2 = none →
      List.Forall₂
        (fun e e' => e.ConsumerData.ExternalNode = "" →
          ∀ (pre post : List Node) (n : Node), c.Nodes = pre ++ n :: post → e.Src = n.ID →
            (∀ m ∈ pre, e.Src ≠ m.ID) → e'.ConsumerData.ExternalNode = n.ConsumerData.Name)
        c.Edges (populateExternalNodeInfoInEdges c).1.Edges) := by
  constructor
  · have h := populateEdges_each c.Nodes c.Edges
    have hedges : (populateExternalNodeInfoInEdges c).1.Edges
        = (populateEdges c.Nodes c.Edges).1 := rfl
    rw [hedges]
    refine List.Forall₂.imp ?_ h
    intro e e' hee hne
    rcases hee with rfl | rfl
    · rfl
    · rw [populateEdge_name, if_neg hne]
  · intro hok
    rw [populateExternalNodeInfoInEdges_of_served c (served_of_populate_ok c hok)]
    refine forall₂_map_self _ _ _ ?_
    intro e _ hempty pre post n hsplit hsrc hpre
    rw [populateEdge_name, if_pos hempty, getExternalNodeForEdge_eq, hsplit,
      sourceNode_of_first e.Src pre post n hsrc hpre]

/-- The statement `populate_name_guard` at `topologyDuplicateIds`, on which enrichment
completes: the unset name becomes `svc-a`, the name of the first of the two nodes that carry
`n1`. -/
theorem populate_name_guard_completed :
    (populateExternalNodeInfoInEdges topologyDuplicateIds).2 = none ∧
    (populateExternalNodeInfoInEdges topologyDuplicateIds).1.Edges.map
      (fun e => e.ConsumerData.ExternalNode) = ["svc-a"] ∧
    List.Forall₂
      (fun e e' => e.ConsumerData.ExternalNode = "" →
        ∀ (pre post : List Node) (n : Node), topologyDuplicateIds.Nodes = pre ++ n :: post →
          e.Src = n.ID → (∀ m ∈ pre, e.Src ≠ m.ID) →
          e'.ConsumerData.ExternalNode = n.ConsumerData.Name)
      topologyDuplicateIds.Edges (populateExternalNodeInfoInEdges topologyDuplicateIds).1.Edges :=
  ⟨by decide, by decide, (populate_name_guard topologyDuplicateIds).2 (by decide)⟩

/-- C17, the code at the failing input. In `topologyNameUnreached` two nodes share the identifier
`n1`, the first named `svc-a`, and neither serves REST. The first edge carries a REST client
config, so the loop of enrichment stops on it with a nil dereference; the second edge, whose
external-node name is unset and whose source identifier is `n1`, is never reached: its name is
still empty afterwards, not `svc-a`, the name of the first node that carries `n1`. `validate`
ends with the same fault. -/
theorem populate_name_unreached (L : Languages) :
    topologyNameUnreached.Edges = [restEdge "n1" "" "stale", plainEdge "n1" ""] ∧
    topologyNameUnreached.Nodes = [] ++ plainNode "n1" "svc-a" :: [plainNode "n1" "svc-b"] ∧
    populateExternalNodeInfoInEdges topologyNameUnreached =
      ({ topologyNameUnreached with
          Edges := [restEdge "n1" "svc-a" "stale", plainEdge "n1" ""] },
        some Fault.nilDereference) ∧
    (populateExternalNodeInfoInEdges topologyNameUnreached).1.Edges.map
      (fun e => e.ConsumerData.ExternalNode) ≠ ["svc-a", "svc-a"] ∧
    (validate L topologyNameUnreached).2 = some Fault.nilDereference := by
  refine ⟨rfl, rfl, by decide, by decide, ?_⟩
  exact validate_of_unserved L topologyNameUnreached (by decide)

/-! ## C18: the copier of the Kubernetes manifests -/

theorem NewCopier_fields (K : KubeCollaborators) (userName repositoryName nodeName
    nodeDirectoryName goTemplatesRootPath : String) (isServer : Bool) (serverPort : String) :
    (NewCopier K userName repositoryName nodeName nodeDirectoryName goTemplatesRootPath isServer
      serverPort).IsServer = false ∧
    (NewCopier K userName repositoryName nodeName nodeDirectoryName goTemplatesRootPath isServer
      serverPort).Port = "" ∧
    (NewCopier K userName repositoryName nodeName nodeDirectoryName goTemplatesRootPath isServer
      serverPort).NodeDirectoryName = nodeDirectoryName ∧
    (NewCopier K userName repositoryName nodeName nodeDirectoryName goTemplatesRootPath isServer
      serverPort).GoTemplatesRootPath = goTemplatesRootPath :=
  ⟨rfl, rfl, rfl, rfl⟩

/-- What `CreateKubernetesFiles` does with a copier whose `IsServer` field is not set: after the
directory, the deployment template only. -/
theorem CreateKubernetesFiles_not_server (K : KubeCollaborators) (c : Copier)
    (past : List KubeEvent) (hserver : c.IsServer = false)
    (hdir : K.CreateDirectories past (c.NodeDirectoryName ++ Path) = none) :
    CreateKubernetesFiles K c past =
      copyDeployment K c past [KubeEvent.CreateDirectories (c.NodeDirectoryName ++ Path) none]
        [] := by
  unfold CreateKubernetesFiles
  simp only [hdir, hserver]
  rfl

/-- What `CreateKubernetesFiles` does with a copier whose `IsServer` field is set, when no call
fails: the service template, then the deployment template, then the rendering of both. -/
theorem CreateKubernetesFiles_server (K : KubeCollaborators) (c : Copier)
    (past : List KubeEvent) (hserver : c.IsServer = true)
    (hdir : K.CreateDirectories past (c.NodeDirectoryName ++ Path) = none)
    (hservice : K.CopyFile
      (past ++ [KubeEvent.CreateDirectories (c.NodeDirectoryName ++ Path) none])
      (c.NodeDirectoryName ++ Path ++ "/" ++ ServiceFile)
      (c.GoTemplatesRootPath ++ Path ++ "/" ++ ServiceFile) = none)
    (hdeployment : K.CopyFile
      (past ++ ([KubeEvent.CreateDirectories (c.NodeDirectoryName ++ Path) none] ++
        [KubeEvent.CopyFile (c.NodeDirectoryName ++ Path ++ "/" ++ ServiceFile)
          (c.GoTemplatesRootPath ++ Path ++ "/" ++ ServiceFile) none]))
      (c.NodeDirectoryName ++ Path ++ "/" ++ DeploymentFile)
      (c.GoTemplatesRootPath ++ Path ++ "/" ++ DeploymentFile) = none) :
    ∃ r, CreateKubernetesFiles K c past =
      ([KubeEvent.CreateDirectories (c.NodeDirectoryName ++ Path) none,
        KubeEvent.CopyFile (c.NodeDirectoryName ++ Path ++ "/" ++ ServiceFile)
          (c.GoTemplatesRootPath ++ Path ++ "/" ++ ServiceFile) none,
        KubeEvent.CopyFile (c.NodeDirectoryName ++ Path ++ "/" ++ DeploymentFile)
          (c.GoTemplatesRootPath ++ Path ++ "/" ++ DeploymentFile) none,
        KubeEvent.Execute
          [c.NodeDirectoryName ++ Path ++ "/" ++ ServiceFile,
            c.NodeDirectoryName ++ Path ++ "/" ++ DeploymentFile] c.Data r], r) := by
  refine ⟨K.Execute
    (past ++ (([KubeEvent.CreateDirectories (c.NodeDirectoryName ++ Path) none] ++
      [KubeEvent.CopyFile (c.NodeDirectoryName ++ Path ++ "/" ++ ServiceFile)
        (c.GoTemplatesRootPath ++ Path ++ "/" ++ ServiceFile) none]) ++
      [KubeEvent.CopyFile (c.NodeDirectoryName ++ Path ++ "/" ++ DeploymentFile)
        (c.GoTemplatesRootPath ++ Path ++ "/" ++ DeploymentFile) none]))
    ([c.NodeDirectoryName ++ Path ++ "/" ++ ServiceFile] ++
      [c.NodeDirectoryName ++ Path ++ "/" ++ DeploymentFile]) c.Data, ?_⟩
  unfold CreateKubernetesFiles
  simp only [hdir, hserver, if_true, hservice]
  unfold copyDeployment
  simp only [hdeployment]
  rfl

/-- C18, the code at the failing input. The copier that `NewCopier` returns for `isServer = true`
and port `8080` has `IsServer = false` and `Port` empty: flag and port are stored in the data map
only. With every call succeeding, `CreateKubernetesFiles` on it copies and renders the deployment
template alone; the service template is never copied. -/
theorem NewCopier_server_dropped :
    copierForServer.IsServer = false ∧ copierForServer.Port = "" ∧
    copierForServer.Data.index "IsServer" = JValue.bool true ∧
    copierForServer.Data.index "ServerPort" = JValue.string "8080" ∧
    CreateKubernetesFiles kubeAllSucceed copierForServer [] =
      ([KubeEvent.CreateDirectories "/tmp/first-project/svc-a/kubernetes" none,
        KubeEvent.CopyFile "/tmp/first-project/svc-a/kubernetes/deployment.yaml.tmpl"
          "/templates/go/kubernetes/deployment.yaml.tmpl" none,
        KubeEvent.Execute ["/tmp/first-project/svc-a/kubernetes/deployment.yaml.tmpl"]
          copierForServer.Data none], none) := by
  refine ⟨rfl, rfl, ?_, ?_, ?_⟩
  · rfl
  · rfl
  · rfl

/-! ## C19: `validate` run a second time -/

theorem setDefaults_idem (L : Languages) (n : Node) :
    setDefaults L (setDefaults L n) = setDefaults L n := by
  unfold setDefaults
  by_cases hl : n.ConsumerData.Language = "" <;> by_cases ht : n.ConsumerData.Template = "" <;>
    by_cases hgo : L.Go = "" <;> by_cases hc : L.Compage = "" <;> simp [hl, ht, hgo, hc]

theorem sourceNode_map_setDefaults (L : Languages) (src : String) (nodes : List Node) :
    sourceNode src (nodes.map (setDefaults L)) = (sourceNode src nodes).map (setDefaults L) := by
  induction nodes with
  | nil => rfl
  | cons n nodes ih =>
    have hid := (setDefaults_fields L n).1
    unfold sourceNode at ih ⊢
    by_cases h : src = n.ID
    · simp [List.find?, hid, h]
    · simpa [List.find?, hid, h] using ih

theorem scans_map_setDefaults (L : Languages) (src : String) (nodes : List Node) :
    getExternalNodeForEdge src (nodes.map (setDefaults L)) = getExternalNodeForEdge src nodes ∧
    getOpenApiFileYamlContentForEdge src (nodes.map (setDefaults L))
      = getOpenApiFileYamlContentForEdge src nodes ∧
    getProtoFileContentForEdge src (nodes.map (setDefaults L))
      = getProtoFileContentForEdge src nodes := by
  rw [getExternalNodeForEdge_eq, getExternalNodeForEdge_eq, getOpenApiFileYamlContentForEdge_eq,
    getOpenApiFileYamlContentForEdge_eq, getProtoFileContentForEdge_eq,
    getProtoFileContentForEdge_eq, sourceNode_map_setDefaults]
  cases sourceNode src nodes with
  | none => exact ⟨rfl, rfl, rfl⟩
  | some n =>
    have h := setDefaults_fields L n
    simp [h.2.1, h.2.2.2.2.1, h.2.2.2.2.2]

theorem populateEdge_of_scans (nodes nodes' : List Node) (e : Edge)
    (h1 : ∀ src, getExternalNodeForEdge src nodes' = getExternalNodeForEdge src nodes)
    (h2 : ∀ src, getOpenApiFileYamlContentForEdge src nodes'
      = getOpenApiFileYamlContentForEdge src nodes)
    (h3 : ∀ src, getProtoFileContentForEdge src nodes' = getProtoFileContentForEdge src nodes) :
    populateEdge nodes' e = populateEdge nodes e := by
  simp only [populateEdge, fillOpenApi, fillProto, fillExternalNode, h1, h2, h3]

theorem populateEdge_idem (nodes : List Node) (e : Edge)
    (h : (populateEdge nodes e).2 = none) :
    populateEdge nodes (populateEdge nodes e).1 = ((populateEdge nodes e).1, none) := by
  rcases e with ⟨src, ⟨ext, rc, gc⟩⟩
  simp only [populateEdge, fillOpenApi, fillProto, fillExternalNode] at h ⊢
  by_cases hext : ext = "" <;> by_cases hname : getExternalNodeForEdge src nodes = "" <;>
    cases rc <;> cases gc <;>
    cases h1 : getOpenApiFileYamlContentForEdge src nodes <;>
    cases h2 : getProtoFileContentForEdge src nodes <;>
    simp_all

/-- C19. When `validate` succeeds on a topology, running `validate` again on the topology it
leaves succeeds and leaves exactly that topology: no field of any node or edge changes. (A
successful first run already implies that every client config found the server config it
reads.) -/
theorem validate_idempotent (L : Languages) (c : CompageJson)
    (hok : (validate L c).2 = none) :
    validate L (validate L c).1 = ((validate L c).1, none) := by
  obtain ⟨hserved, hnamed, hext, hres⟩ := validate_ok L c hok
  rw [hres]
  have hscan := scans_map_setDefaults L
  have hpop : ∀ e, populateEdge (c.Nodes.map (setDefaults L)) e = populateEdge c.Nodes e :=
    fun e => populateEdge_of_scans c.Nodes _ e (fun src => (hscan src c.Nodes).1)
      (fun src => (hscan src c.Nodes).2.1) (fun src => (hscan src c.Nodes).2.2)
  have hidem : ∀ e ∈ c.Edges,
      populateEdge c.Nodes (populateEdge c.Nodes e).1 = ((populateEdge c.Nodes e).1, none) :=
    fun e he => populateEdge_idem c.Nodes e ((populateEdge_fault_none_iff c.Nodes e).mpr
      (hserved e he))
  have hserved1 : ∀ e' ∈ enrichedEdges c, Served (c.Nodes.map (setDefaults L)) e' := by
    intro e' he'
    obtain ⟨e, he, rfl⟩ := List.mem_map.mp he'
    rw [← populateEdge_fault_none_iff, hpop, hidem e he]
  have hnamed1 : ∀ n' ∈ c.Nodes.map (setDefaults L), n'.ConsumerData.Name ≠ "" := by
    intro n' hn'
    obtain ⟨n, hn, rfl⟩ := List.mem_map.mp hn'
    rw [(setDefaults_fields L n).2.1]
    exact hnamed n hn
  have henr : enrichedEdges { Edges := enrichedEdges c, Nodes := c.Nodes.map (setDefaults L) }
      = enrichedEdges c := by
    unfold enrichedEdges
    simp only [List.map_map]
    refine List.map_congr_left ?_
    intro e he
    simp only [Function.comp_apply, hpop, hidem e he]
  have hnodes : (c.Nodes.map (setDefaults L)).map (setDefaults L) = c.Nodes.map (setDefaults L) := by
    simp only [List.map_map]
    exact List.map_congr_left (fun n _ => setDefaults_idem L n)
  rw [validate_of_served L _ hserved1, if_pos hnamed1, henr, validateEdges_eq, if_pos hext]
  simp only [hnodes]

/-- C19, witness: the REST scenario of the spec; the second run returns the validated topology
unchanged. -/
theorem validate_idempotent_witness :
    (validate sampleLanguages topologyRestScenario).2 = none ∧
    validate sampleLanguages (validate sampleLanguages topologyRestScenario).1
      = ((validate sampleLanguages topologyRestScenario).1, none) :=
  ⟨by decide, validate_idempotent sampleLanguages topologyRestScenario (by decide)⟩

end Compage
